import Mathlib

/-!
Verification development for the topology discovery and addressing engine of
the Cisco generic SNMP autoload module
(src/cloudshell/networking/cisco/autoload/cisco_generic_snmp_autoload.py).

The Python code is shallowly embedded: entity rows become the structure
`ERow`, SNMP query results become explicit oracle functions, Python dicts
become association lists, `int(...)` conversions become `parseInt`
(a parse failure, which raises in Python, is modelled by `Option.none`),
and recursive walks over parent pointers take an explicit fuel argument
(fuel exhaustion is also `none`; every theorem about such a walk is stated
for runs that return `some`).  All helpers are written by structural
recursion over `String.data` so that concrete runs reduce in the kernel.
-/

/- ---------------------------------------------------------------- -/
/- String helpers modelling Python primitives                       -/
/- ---------------------------------------------------------------- -/

/-- Does the second list start with the first one? -/
def leadsWith : List Char → List Char → Bool
  | [], _ => true
  | _ :: _, [] => false
  | a :: as, b :: bs => a == b && leadsWith as bs

/-- Does a character list contain `pat` as a contiguous sublist? -/
def hasInfixAux (pat : List Char) : List Char → Bool
  | [] => leadsWith pat []
  | c :: rest => leadsWith pat (c :: rest) || hasInfixAux pat rest

/-- Substring test: does the string `s` contain `pat`?  Models the Python
expression `pat in s` and `re.search` applied to a literal pattern. -/
def strHas (s pat : String) : Bool := hasInfixAux pat.data s.data

/-- Does `s` contain any of the literal alternatives in `pats`?  Models
`re.search` on an alternation of literals such as
the container/backplane alternation. -/
def strHasAny (s : String) (pats : List String) : Bool := pats.any (strHas s)

/-- Lower-case a string, modelling Python `str.lower()`. -/
def lowerStr (s : String) : String := String.mk (s.data.map Char.toLower)

/-- The apostrophe character, written via its code point. -/
def apostrophe : Char := Char.ofNat 39

/-- Models `s.replace(apostrophe, empty)`: drop every apostrophe. -/
def stripApostrophes (s : String) : String :=
  String.mk (s.data.filter (fun c => c != apostrophe))

/-- Accumulate decimal digits; `none` on any non-digit character.  Part of
the model of Python `int(...)`. -/
def parseNatAux : List Char → Nat → Option Nat
  | [], acc => some acc
  | c :: rest, acc =>
    if c.isDigit then parseNatAux rest (acc * 10 + (c.toNat - 48)) else none

/-- Models Python `int(s)` on a decimal string: optional minus sign followed
by at least one digit; `none` models the `ValueError` raised otherwise. -/
def parseInt (s : String) : Option Int :=
  match s.data with
  | [] => none
  | c :: rest =>
    if c == Char.ofNat 45 then
      match rest with
      | [] => none
      | _ => (parseNatAux rest 0).map (fun n => -(n : Int))
    else (parseNatAux (c :: rest) 0).map (fun n => (n : Int))

/-- Split on a separator character, keeping empty pieces: models Python
`s.split(sep)` with an explicit one-character separator. -/
def splitCharAux (sep : Char) : List Char → List Char → List String
  | [], cur => [String.mk cur.reverse]
  | c :: rest, cur =>
    if c == sep then String.mk cur.reverse :: splitCharAux sep rest []
    else splitCharAux sep rest (c :: cur)

/-- Models Python `s.split(sep)` for a one-character separator. -/
def splitChar (s : String) (sep : Char) : List String := splitCharAux sep s.data []

/-- Models Python `s.split()` with no argument: split on whitespace runs and
drop empty tokens. -/
def splitWhitespace (s : String) : List String :=
  (splitCharAux (Char.ofNat 32) (s.data.map (fun c => if c.isWhitespace then Char.ofNat 32 else c)) []).filter
    (fun t => t ≠ "")

/-- Models Python `sep.join(parts)`. -/
def joinWith (sep : String) : List String → String
  | [] => ""
  | [x] => x
  | x :: xs => x ++ sep ++ joinWith sep xs

/-- Stable insertion into a list sorted by the strict comparison `lt`. -/
def insertSorted (lt : α → α → Bool) (x : α) : List α → List α
  | [] => [x]
  | y :: ys => if lt y x then y :: insertSorted lt x ys else x :: y :: ys

/-- Stable sort by the strict comparison `lt` (models Python sorted / the
QualiMibTable sort, whose ties keep the original order). -/
def sortBy (lt : α → α → Bool) : List α → List α
  | [] => []
  | x :: xs => insertSorted lt x (sortBy lt xs)

/- ---------------------------------------------------------------- -/
/- Association-list dictionaries (Python dict with int keys)        -/
/- ---------------------------------------------------------------- -/

/-- Dictionary read, `d[k]` / `d.get(k)`: the binding of key `k`. -/
def dictGet : List (Int × String) → Int → Option String
  | [], _ => none
  | kv :: d, k => if kv.1 == k then some kv.2 else dictGet d k

/-- Dictionary write `d[k] = v`: replace the binding if the key is present,
append a new binding otherwise. -/
def dictSet : List (Int × String) → Int → String → List (Int × String)
  | [], k, v => [(k, v)]
  | kv :: d, k, v => if kv.1 == k then (k, v) :: d else kv :: dictSet d k v

/-- The values view of a dictionary, `d.values()`. -/
def dictValues (d : List (Int × String)) : List String := d.map (fun kv => kv.2)

/-- The keys of a dictionary have no duplicates (true for Python dicts). -/
def keysNodup (d : List (Int × String)) : Prop := (d.map (fun kv => kv.1)).Nodup

/-- How many bindings a key has in the dictionary. -/
def countKey (d : List (Int × String)) (k : Int) : Nat :=
  (d.filter (fun kv => kv.1 == k)).length

/- ---------------------------------------------------------------- -/
/- Port address collision resolution (_get_port_relative_path)      -/
/- ---------------------------------------------------------------- -/

/-- One collision-resolution step of `_get_port_relative_path`: add 1000 to
the numeric last `/`-separated segment of the address (when the address has
no `/`, Python instead takes the last whitespace token of the whole string).
`none` models the `ValueError` raised by `int(...)` on a non-numeric
segment, or the `IndexError` on an empty token list. -/
def bumpLastSegment (relativeId : String) : Option String :=
  if relativeId.data.contains (Char.ofNat 47) then
    let ids := splitChar relativeId (Char.ofNat 47)
    (ids.getLast?).bind (fun lastSeg =>
      (parseInt lastSeg).map (fun n =>
        joinWith "/" (ids.dropLast ++ [toString (n + 1000)])))
  else
    let ws := splitWhitespace relativeId
    (ws.getLast?).bind (fun lastSeg =>
      (parseInt lastSeg).map (fun n => toString (n + 1000)))

/-- `_get_port_relative_path(relative_id)`: if the computed address already
occurs among the assigned address values, bump its last segment by 1000 and
recurse until the address is fresh.  `vals` is `self.relative_path.values()`
(which the Python code re-reads but never changes during the recursion). -/
def getPortRelativePath (fuel : Nat) (vals : List String) (relativeId : String) :
    Option String :=
  match fuel with
  | 0 => none
  | fuel + 1 =>
    if relativeId ∈ vals then
      match bumpLastSegment relativeId with
      | none => none
      | some result =>
        if relativeId ∈ vals then getPortRelativePath fuel vals result
        else some result
    else some relativeId

/- ---------------------------------------------------------------- -/
/- Entity table rows                                                -/
/- ---------------------------------------------------------------- -/

/-- One row of the filtered entity table (`result_dict` /
`self.entity_table`): the six per-row string attributes the code keeps.
`eclass` is `entPhysicalClass` after the inference/strip step. -/
structure ERow where
  containedIn : String
  relPos : String
  eclass : String
  vendorType : String
  name : String
  descr : String
deriving Repr, DecidableEq

/-- Table read `table[idx]`; `none` models a Python `KeyError`. -/
def tableGet : List (Int × ERow) → Int → Option ERow
  | [], _ => none
  | kv :: t, idx => if kv.1 == idx then some kv.2 else tableGet t idx

/-- The keys of a table. -/
def tableKeys (table : List (Int × ERow)) : List Int := table.map (fun kv => kv.1)

/-- In-place update of one row, used by the lower-bay repair. -/
def tableSet : List (Int × ERow) → Int → ERow → List (Int × ERow)
  | [], _, _ => []
  | kv :: t, idx, row => if kv.1 == idx then (idx, row) :: t else kv :: tableSet t idx row

/-- ParentRelPos of a row as an integer, with 0 for unparsable values; used
only as the sort key modelling `sort_by_column(ParentRelPos)`. -/
def relPosKey (row : ERow) : Int := (parseInt row.relPos).getD 0

/-- Sort table entries by ParentRelPos, ascending and stable.  Modelled from
the spec: the external QualiMibTable sorts retained nodes by
`parentRelativePosition`. -/
def sortByRelPos (entries : List (Int × ERow)) : List (Int × ERow) :=
  sortBy (fun a b => relPosKey a.2 < relPosKey b.2) entries

/- ---------------------------------------------------------------- -/
/- Addressing state and the address path builder                    -/
/- ---------------------------------------------------------------- -/

/-- The instance state read and written by `add_relative_paths` and its
helpers: the relative-path dictionary, the id lists, and the entity table. -/
structure AState where
  rp : List (Int × String)
  module_list : List Int
  port_list : List Int
  chassis_list : List Int
  exclusion_list : List Int
  excluded_models : List Int
  entity_table : List (Int × ERow)
deriving Repr, DecidableEq

/-- `_get_resource_id(item_id)`: the address segment a node contributes.  If
the immediate parent is a container/backplane the relative position of the parent
is used; if the parent is an excluded model the computation recurses to the
grandparent; otherwise the own relative position of the node is used. -/
def getResourceId (fuel : Nat) (st : AState) (itemId : Int) : Option String :=
  match fuel with
  | 0 => none
  | fuel + 1 =>
    match tableGet st.entity_table itemId with
    | none => none
    | some row =>
      match parseInt row.containedIn with
      | none => none
      | some parentId =>
        if 0 < parentId then
          match tableGet st.entity_table parentId with
          | some prow =>
            if strHasAny prow.eclass ["container", "backplane"] then some prow.relPos
            else if parentId ∈ st.excluded_models then getResourceId fuel st parentId
            else some row.relPos
          | none => some row.relPos
        else some row.relPos

/-- `get_relative_path(item_id)`: the address of the nearest addressed
ancestor, extended with the own segment of the parent when the parent is a module
that has not been addressed yet.  A `KeyError` on `relative_path[item_id]`
(an excluded chassis) is `none`. -/
def getRelativePath (fuel : Nat) (st : AState) (itemId : Int) : Option String :=
  match fuel with
  | 0 => none
  | fuel + 1 =>
    if itemId ∈ st.chassis_list then dictGet st.rp itemId
    else
      match tableGet st.entity_table itemId with
      | none => none
      | some row =>
        match parseInt row.containedIn with
        | none => none
        | some parentId =>
          match dictGet st.rp parentId with
          | some v => some v
          | none =>
            match
              (if parentId ∈ st.module_list then getResourceId fuel st parentId
               else some "") with
            | none => none
            | some r0 =>
              if r0 ≠ "" then
                match getRelativePath fuel st parentId with
                | none => none
                | some pre => some (pre ++ "/" ++ r0)
              else getRelativePath fuel st parentId

/-- The module loop of `add_relative_paths`: address every non-excluded
module of the snapshot; drop excluded ones from the live module list. -/
def modulePhase (fuel : Nat) : AState → List Int → Option AState
  | st, [] => some st
  | st, m :: rest =>
    if m ∈ st.exclusion_list then
      modulePhase fuel { st with module_list := st.module_list.erase m } rest
    else
      match getRelativePath fuel st m with
      | none => none
      | some pre =>
        match getResourceId fuel st m with
        | none => none
        | some rid =>
          modulePhase fuel { st with rp := dictSet st.rp m (pre ++ "/" ++ rid) } rest

/-- The port loop of `add_relative_paths`: address every non-excluded port
of the snapshot through the collision resolver; drop excluded ones from the
live port list. -/
def portPhase (fuel : Nat) : AState → List Int → Option AState
  | st, [] => some st
  | st, p :: rest =>
    if p ∈ st.exclusion_list then
      portPhase fuel { st with port_list := st.port_list.erase p } rest
    else
      match getRelativePath fuel st p with
      | none => none
      | some pre =>
        match getResourceId fuel st p with
        | none => none
        | some rid =>
          match getPortRelativePath fuel (dictValues st.rp) (pre ++ "/" ++ rid) with
          | none => none
          | some addr => portPhase fuel { st with rp := dictSet st.rp p addr } rest

/-- `add_relative_paths()`: snapshot the module and port lists, then run the
module loop followed by the port loop. -/
def addRelativePaths (fuel : Nat) (st : AState) : Option AState :=
  match modulePhase fuel st st.module_list with
  | none => none
  | some st1 => portPhase fuel st1 st.port_list

/- ---------------------------------------------------------------- -/
/- Exclusion propagation (_filter_entity_table)                     -/
/- ---------------------------------------------------------------- -/

/-- The external `QualiMibTable.filter_by_column(column, *values)` call,
modelled from the library (outside this repository): keep the rows whose
value in the named column is among the given `values`. -/
def filterByColumn (proj : ERow → String) (values : List String) :
    List (Int × ERow) → List (Int × ERow)
  | [] => []
  | kv :: rest =>
    if values.contains (proj kv.2) then kv :: filterByColumn proj values rest
    else filterByColumn proj values rest

/-- The loop of `_filter_entity_table` over the element list.  The first
statement of the body (line 548) reads `self.entity_table[element]`; at the
only call site (line 245, inside `_get_entity_table`) that instance
attribute is still unbound: `_load_snmp_tables` assigns it only at line 155,
after `_get_entity_table` returns, and each discovery runs on a freshly
constructed instance whose constructor never sets it.  A nonempty element
list therefore raises AttributeError, modelled as `none`; an empty element
list leaves the exclusion list unchanged. -/
def exclusionPass : List Int → List Int → Option (List Int)
  | [], excl => some excl
  | _ :: _, _ => none

/-- The element list of `_filter_entity_table` (line 546): the retained
table filtered by the ContainedIn column WITHOUT any filter value, sorted by
ParentRelPos and iterated reversed.  The value-less filter matches no row,
so the list is always empty. -/
def visitOrder (table : List (Int × ERow)) : List Int :=
  ((sortByRelPos (filterByColumn (fun r => r.containedIn) [] table)).map
      (fun kv => kv.1)).reverse

/-- `_filter_entity_table(raw_entity_table)`: run the loop over the element
list.  Because that list is empty, the pass returns the exclusion list
unchanged and never reaches the unbound-attribute read. -/
def filterEntityTablePass (table : List (Int × ERow)) (excl : List Int) :
    Option (List Int) :=
  exclusionPass (visitOrder table) excl

/-- Modelled from the docstring of `_filter_entity_table` (filter out all
elements whose parents are missing or already excluded) and the spec: the
visiting order the filtering was meant to use, every retained row in
descending ParentRelPos order. -/
def intendedVisitOrder (table : List (Int × ERow)) : List Int :=
  ((sortByRelPos table).map (fun kv => kv.1)).reverse

/-- Modelled from the docstring of `_filter_entity_table` and the spec, for
comparison with the code: the filtering loop the pass was meant to perform,
reading each visited row from the raw-table argument and appending to the
exclusion list every element whose parent id is not a key of the retained
table or is already in the exclusion list.  The program never performs this
computation (see `exclusionPass`). -/
def intendedExclusionPass (table : List (Int × ERow)) :
    List Int → List Int → Option (List Int)
  | [], excl => some excl
  | element :: rest, excl =>
    match tableGet table element with
    | none => none
    | some row =>
      match parseInt row.containedIn with
      | none => none
      | some parentId =>
        if (tableGet table parentId).isNone ∨ parentId ∈ excl then
          intendedExclusionPass table rest (excl ++ [element])
        else intendedExclusionPass table rest excl

/-- The intended filtering pass as a whole, spec-modelled for comparison
with `filterEntityTablePass`. -/
def intendedFilterPass (table : List (Int × ERow)) (excl : List Int) :
    Option (List Int) :=
  intendedExclusionPass table (intendedVisitOrder table) excl

/- ---------------------------------------------------------------- -/
/- Entity table loader and classifier (_get_entity_table)           -/
/- ---------------------------------------------------------------- -/

/-- One logical-interface row: its descriptor and its numeric table index
(the `suffix` column of the external QualiMibTable). -/
structure IfRow where
  ifDescr : String
  suffix : Int
deriving Repr, DecidableEq

/-- The SNMP environment of one discovery run: the raw
`entPhysicalParentRelPos` table, the per-index property fetches (the
critical fetch delivers ContainedIn/Class/VendorType, the optional fetch
delivers Descr/Name, and `vendorTypeProp` is the separate
`get_property(entPhysicalVendorType)` query the code issues again during
class inference and in the bay/module scans), the alias-mapping query
(`none` models a failed query, caught in the source), and the logical
interface table. -/
structure SnmpEnv where
  physicalIndexes : List (Int × String)
  containedInOf : Int → String
  classOf : Int → String
  vendorTypeOf : Int → String
  descrOf : Int → String
  nameOf : Int → String
  vendorTypeProp : Int → String
  entAlias : Int → Option Int
  ifTable : List (Int × IfRow)

/-- The blacklist `entity_table_black_list` of `__init__`. -/
def entityTableBlackList : List String := ["alarm", "fan", "sensor"]

/-- The alternatives of `port_exclude_pattern` (matched case-insensitively
against port name and description). -/
def portExcludeKeywords : List String :=
  ["serial", "stack", "engine", "management", "mgmt", "voice", "foreign"]

/-- The alternatives of the structural-class filter regex of
`_get_entity_table`. -/
def structuralClassKeywords : List String :=
  ["stack", "chassis", "module", "port", "powerSupply", "container", "backplane"]

/-- Does a port name or description match `port_exclude_pattern`
(case-insensitive search)? -/
def portNameExcluded (s : String) : Bool := strHasAny (lowerStr s) portExcludeKeywords

/-- Maximal runs of digit characters in a string: models
`re.findall(digits, s)`. -/
def digitRunsAux : List Char → List Char → List String
  | [], [] => []
  | [], cur => [String.mk cur.reverse]
  | c :: rest, cur =>
    if c.isDigit then digitRunsAux rest (c :: cur)
    else
      match cur with
      | [] => digitRunsAux rest []
      | _ => String.mk cur.reverse :: digitRunsAux rest []

/-- Maximal digit runs of a string. -/
def digitRuns (s : String) : List String := digitRunsAux s.data []

/-- `_get_mapping(port_index, port_descr)`: resolve the logical interface
index for a physical port row.  The alias-mapping query is preferred; on its
failure the digit runs of the physical descriptor, joined by `/`, are
searched for in the interface descriptors and the first match wins. -/
def getMapping (env : SnmpEnv) (portIndex : Int) (portDescr : String) : Option Int :=
  match env.entAlias portIndex with
  | some portId => some portId
  | none =>
    let ifTableRe := joinWith "/" (digitRuns portDescr)
    match env.ifTable.find? (fun kv => strHas kv.2.ifDescr ifTableRe) with
    | some kv => some kv.2.suffix
    | none => none

/-- The mutable state built by the `_get_entity_table` loop: the retained
table, the exclusion list, the three id lists, the physical-to-logical port
mapping, and (as an instrumentation of the embedding) the list of indexes
for which per-row attributes were fetched. -/
structure ETState where
  resultDict : List (Int × ERow)
  exclusionList : List Int
  chassisList : List Int
  portList : List Int
  powerSupplyList : List Int
  portMapping : List (Int × Int)
  fetched : List Int
deriving Repr, DecidableEq

/-- The empty loader state. -/
def initETState : ETState :=
  { resultDict := [], exclusionList := [], chassisList := [], portList := [],
    powerSupplyList := [], portMapping := [], fetched := [] }

/-- The class-resolution step of `_get_entity_table` for one row: infer the
class from the vendor type when it is empty, strip apostrophes otherwise.
`none` models the `continue` taken when both the class and the re-fetched
vendor type are empty. -/
def resolveClass (env : SnmpEnv) (idx : Int) (cls0 : String) : Option String :=
  if cls0 == "" then
    let vendorType := env.vendorTypeProp idx
    if vendorType == "" then none
    else
      let inferred : Option String :=
        if strHas (lowerStr vendorType) "cevcontainer" then some "container"
        else if strHas (lowerStr vendorType) "cevchassis" then some "chassis"
        else if strHas (lowerStr vendorType) "cevmodule" then some "module"
        else if strHas (lowerStr vendorType) "cevport" then some "port"
        else if strHas (lowerStr vendorType) "cevpowersupply" then some "powerSupply"
        else none
      match inferred with
      | some c => some c
      | none => some cls0
  else some (stripApostrophes cls0)

/-- The port branch of `_get_entity_table`: a port row joins the port list
and the port mapping only if its name and description avoid the exclusion
pattern, a truthy (nonzero) logical index is resolved, that index is a key
of the interface table, and it has not been claimed before. -/
def portBranch (env : SnmpEnv) (st : ETState) (idx : Int) : ETState :=
  if ¬ portNameExcluded (env.nameOf idx) ∧ ¬ portNameExcluded (env.descrOf idx) then
    match getMapping env idx (env.descrOf idx) with
    | some portId =>
      if portId ≠ 0 ∧ (env.ifTable.find? (fun kv => kv.1 == portId)).isSome ∧
          portId ∉ st.portMapping.map (fun kv => kv.2) then
        { st with portMapping := st.portMapping ++ [(idx, portId)],
                  portList := st.portList ++ [idx] }
      else st
    | none => st
  else st

/-- The retained row built for index `idx` when its resolved class is
`cls`. -/
def entityRowOf (env : SnmpEnv) (idx : Int) (relPos cls : String) : ERow :=
  { containedIn := env.containedInOf idx, relPos := relPos, eclass := cls,
    vendorType := env.vendorTypeOf idx, name := env.nameOf idx,
    descr := env.descrOf idx }

/-- Processing of one row of the `entPhysicalParentRelPos` table by the
`_get_entity_table` loop. -/
def processEntityRow (env : SnmpEnv) (st : ETState) (idx : Int) (relPos : String) :
    ETState :=
  if relPos == "" then { st with exclusionList := st.exclusionList ++ [idx] }
  else
    let st1 := { st with fetched := st.fetched ++ [idx] }
    let exclParent := env.containedInOf idx == ""
    let st2 :=
      if exclParent then { st1 with exclusionList := st1.exclusionList ++ [idx] } else st1
    let exclBlack :=
      entityTableBlackList.any (fun kw => strHas (lowerStr (env.vendorTypeOf idx)) kw)
    if exclParent || exclBlack then st2
    else
      let st3 := { st2 with fetched := st2.fetched ++ [idx] }
      match resolveClass env idx (env.classOf idx) with
      | none => st3
      | some cls =>
        let st4 :=
          if strHasAny cls structuralClassKeywords then
            { st3 with resultDict := st3.resultDict ++ [(idx, entityRowOf env idx relPos cls)] }
          else st3
        if cls == "chassis" then { st4 with chassisList := st4.chassisList ++ [idx] }
        else if cls == "port" then portBranch env st4 idx
        else if cls == "powerSupply" then
          { st4 with powerSupplyList := st4.powerSupplyList ++ [idx] }
        else st4

/-- The full `_get_entity_table` loop over the raw table rows. -/
def processEntityRows (env : SnmpEnv) (st : ETState) :
    List (Int × String) → ETState
  | [] => st
  | (idx, relPos) :: rest => processEntityRows env (processEntityRow env st idx relPos) rest

/-- `_get_entity_table()`: run the classification loop, then the
`_filter_entity_table` pass over the retained rows (whose element list is
empty, so it changes nothing). -/
def getEntityTable (env : SnmpEnv) : Option ETState :=
  let st := processEntityRows env initETState env.physicalIndexes
  match filterEntityTablePass st.resultDict st.exclusionList with
  | none => none
  | some excl => some { st with exclusionList := excl }

/- ---------------------------------------------------------------- -/
/- discover: the two fatal cases                                    -/
/- ---------------------------------------------------------------- -/

/-- The message of the exception raised when the filtered entity table is
empty. -/
def entityTableErrorMsg : String := "Cannot load entPhysicalTable. Autoload cannot continue"

/-- `_load_snmp_tables()` restricted to the entity table: build it and raise
when it is empty. -/
def loadSnmpTables (env : SnmpEnv) : Except String ETState :=
  match getEntityTable env with
  | none => Except.error "int conversion failed"
  | some st =>
    if st.resultDict.length < 1 then Except.error entityTableErrorMsg
    else Except.ok st

/-- `discover()` around its two fatal cases: load the tables (which raises
when the entity table is empty), then return an explicitly empty
resources/attributes result when no chassis was retained; the remainder of
the pipeline is the abstract continuation `rest`. -/
def discover (env : SnmpEnv) (rest : ETState → List String × List String) :
    Except String (List String × List String) :=
  match loadSnmpTables env with
  | Except.error e => Except.error e
  | Except.ok st =>
    if st.chassisList.length < 1 then Except.ok ([], [])
    else Except.ok (rest st)

/- ---------------------------------------------------------------- -/
/- Dual-bay container repair (_filter_lower_bay_containers)         -/
/- ---------------------------------------------------------------- -/

/-- The container whose vendor type contains `uppermodulebay`, scanning the
container rows in ascending ParentRelPos order; the last match wins. -/
def findUpperBay (vendorOf : Int → String) (table : List (Int × ERow)) : Option Int :=
  ((sortByRelPos (table.filter (fun kv => kv.2.eclass == "container"))).map
      (fun kv => kv.1)).foldl
    (fun acc c => if strHas (lowerStr (vendorOf c)) "uppermodulebay" then some c else acc)
    none

/-- The container whose vendor type contains `lowermodulebay`; the last
match wins. -/
def findLowerBay (vendorOf : Int → String) (table : List (Int × ERow)) : Option Int :=
  ((sortByRelPos (table.filter (fun kv => kv.2.eclass == "container"))).map
      (fun kv => kv.1)).foldl
    (fun acc c => if strHas (lowerStr (vendorOf c)) "lowermodulebay" then some c else acc)
    none

/-- The keys of the rows contained in the bay `c` (the code compares the
ContainedIn column with `str(c)`). -/
def childrenOfBay (table : List (Int × ERow)) (c : Int) : List Int :=
  (sortByRelPos (table.filter (fun kv => kv.2.containedIn == toString c))).map
    (fun kv => kv.1)

/-- The repaired version of a lower-bay child row: re-parented onto the
upper bay `u` with its relative position offset by `len`. -/
def repairedRow (u len n : Int) (row : ERow) : ERow :=
  { row with containedIn := toString u, relPos := toString (len + n) }

/-- The per-child mutation of the lower-bay repair: re-parent the child
onto the upper bay and renumber its relative position. -/
def lowerBayStep (upperContainer childUpperItemsLen : Int)
    (t : List (Int × ERow)) (child : Int) : Option (List (Int × ERow)) :=
  match tableGet t child with
  | none => none
  | some row =>
    match parseInt row.relPos with
    | none => none
    | some n =>
      some (tableSet t child (repairedRow upperContainer childUpperItemsLen n row))

/-- `_filter_lower_bay_containers()`: when both an upper-bay and a lower-bay
container are found, move every child of the lower bay under the upper bay
and renumber its relative position by the pre-existing child
count.  (The source stores the upper container id into the ContainedIn
column as an int; every later use converts with `int(...)`, so the string
form kept here is observationally the same.) -/
def filterLowerBayContainers (vendorOf : Int → String) (table : List (Int × ERow)) :
    Option (List (Int × ERow)) :=
  match findLowerBay vendorOf table, findUpperBay vendorOf table with
  | some lowerContainer, some upperContainer =>
    (childrenOfBay table lowerContainer).foldlM
      (lowerBayStep upperContainer ((childrenOfBay table upperContainer).length : Int))
      table
  | _, _ => some table

/-- The order of the two tree-repair steps as `discover` actually runs them:
the `_filter_entity_table` pass happens inside the entity-table
construction (line 245), and the lower-bay repair runs only afterwards
(line 92). -/
def exclusionThenRepair (vendorOf : Int → String) (table : List (Int × ERow))
    (excl : List Int) : Option (List Int × List (Int × ERow)) :=
  match filterEntityTablePass table excl with
  | none => none
  | some excl2 =>
    match filterLowerBayContainers vendorOf table with
    | none => none
    | some table2 => some (excl2, table2)

/-- Modelled from the spec words: the claimed order of the two steps, with
the lower-bay repair preceding the exclusion pass.  The pass reads no
parent pointer in either order, so the two orders agree everywhere. -/
def repairThenExclusion (vendorOf : Int → String) (table : List (Int × ERow))
    (excl : List Int) : Option (List Int × List (Int × ERow)) :=
  match filterLowerBayContainers vendorOf table with
  | none => none
  | some table2 =>
    match filterEntityTablePass table2 excl with
    | none => none
    | some excl2 => some (excl2, table2)

/- ---------------------------------------------------------------- -/
/- Module list construction (get_module_list)                       -/
/- ---------------------------------------------------------------- -/

/-- `_get_module_parents(module_id)`: walk the parent pointers, collecting
every module-class ancestor; a chassis-class ancestor stops the walk and
any other ancestor class is skipped over. -/
def getModuleParents (fuel : Nat) (table : List (Int × ERow)) (moduleId : Int) :
    Option (List Int) :=
  match fuel with
  | 0 => none
  | fuel + 1 =>
    match tableGet table moduleId with
    | none => none
    | some row =>
      match parseInt row.containedIn with
      | none => none
      | some parentId =>
        if 0 < parentId then
          match tableGet table parentId with
          | some prow =>
            if strHas prow.eclass "module" then
              match getModuleParents fuel table parentId with
              | none => none
              | some rest => some (parentId :: rest)
            else if strHas prow.eclass "chassis" then some []
            else getModuleParents fuel table parentId
          | none => some []
        else some []

/-- The inner loop of `get_module_list` over the ancestors of one port:
a module already collected is skipped; a module whose vendor type matches
`module_exclude_pattern` goes to the excluded-models list; otherwise the
module is appended unless it is excluded. -/
def addModules (vendorOf : Int → String) (exclusionList : List Int) :
    List Int → List Int × List Int → List Int × List Int
  | [], acc => acc
  | m :: rest, acc =>
    if m ∈ acc.1 then addModules vendorOf exclusionList rest acc
    else if ¬ strHas (lowerStr (vendorOf m)) "cevsfp" = true then
      (if m ∉ exclusionList ∧ m ∉ acc.1 then
        addModules vendorOf exclusionList rest (acc.1 ++ [m], acc.2)
      else addModules vendorOf exclusionList rest acc)
    else addModules vendorOf exclusionList rest (acc.1, acc.2 ++ [m])

/-- `get_module_list()`: collect the module-class ancestors of every port of
the port list, building the module list and the excluded-models list. -/
def getModuleList (fuel : Nat) (vendorOf : Int → String)
    (table : List (Int × ERow)) (portList exclusionList : List Int) :
    Option (List Int × List Int) :=
  portList.foldlM
    (fun acc p =>
      match getModuleParents fuel table p with
      | none => none
      | some modules => some (addModules vendorOf exclusionList modules acc))
    ([], [])

/- ---------------------------------------------------------------- -/
/- Power port filtering (_filter_power_port_list)                   -/
/- ---------------------------------------------------------------- -/

/-- The loop of `_filter_power_port_list`: iterate over a snapshot of the
power-supply list, removing from the live list every entry whose parent row
is power-supply-classified and is still present in the live list.  `none`
models the `KeyError` on a missing parent row or the `ValueError` of
`int(...)`. -/
def filterPowerPortLoop (table : List (Int × ERow)) :
    List Int → List Int → Option (List Int)
  | [], live => some live
  | powerPort :: rest, live =>
    match tableGet table powerPort with
    | none => none
    | some row =>
      match parseInt row.containedIn with
      | none => none
      | some parentIndex =>
        match tableGet table parentIndex with
        | none => none
        | some prow =>
          if strHas prow.eclass "powerSupply" then
            if parentIndex ∈ live then filterPowerPortLoop table rest (live.erase powerPort)
            else filterPowerPortLoop table rest live
          else filterPowerPortLoop table rest live

/-- `_filter_power_port_list()` applied to the power-supply list. -/
def filterPowerPortList (table : List (Int × ERow)) (powerSupplyList : List Int) :
    Option (List Int) :=
  filterPowerPortLoop table powerSupplyList powerSupplyList

/- ---------------------------------------------------------------- -/
/- IP address details (_get_ip_interface_details)                   -/
/- ---------------------------------------------------------------- -/

/-- One row of the IPv4/IPv6 address tables: the optional interface-index
column. -/
structure IpRow where
  ipAdEntIfIndex : Option String
deriving Repr, DecidableEq

/-- The body `_get_ip_interface_details` runs for one address table: the
loop breaks unconditionally after its first iteration, so only the first
entry is ever examined, and only when the table has at least two entries.
`none` models the `ValueError` of `int(...)`. -/
def ipAddressOf (ipTable : List (String × IpRow)) (portIndex : Int) : Option String :=
  if ipTable.length ≠ 0 ∧ 1 < ipTable.length then
    match ipTable with
    | [] => some ""
    | (key, value) :: _ =>
      match value.ipAdEntIfIndex with
      | some s =>
        match parseInt s with
        | none => none
        | some n => some (if n == portIndex then key else "")
      | none => some ""
  else some ""

/-- `_get_ip_interface_details(port_index)`: the IPv4 and IPv6 address
attributes for one port. -/
def getIpInterfaceDetails (ipV4Table ipV6Table : List (String × IpRow))
    (portIndex : Int) : Option (String × String) :=
  match ipAddressOf ipV4Table portIndex with
  | none => none
  | some ipv4 =>
    match ipAddressOf ipV6Table portIndex with
    | none => none
    | some ipv6 => some (ipv4, ipv6)

/-- Modelled from the spec: the key of the first table entry whose
interface-index column equals the target logical index, or the empty string
when no entry matches. -/
def ipFirstMatch (ipTable : List (String × IpRow)) (portIndex : Int) : String :=
  match ipTable.find?
      (fun kv => (kv.2.ipAdEntIfIndex.bind parseInt) == some portIndex) with
  | some kv => kv.1
  | none => ""

/- ---------------------------------------------------------------- -/
/- Derived per-row predicates for the loader                        -/
/- ---------------------------------------------------------------- -/

/-- Does processing row `(idx, relPos)` reach the port branch of
`_get_entity_table`: a nonempty relative position, a nonempty ContainedIn,
no blacklist match on the vendor type, and a resolved class of `port`? -/
def rowReachesPortBranch (env : SnmpEnv) (idx : Int) (relPos : String) : Bool :=
  !(relPos == "") &&
  !(env.containedInOf idx == "") &&
  !(entityTableBlackList.any (fun kw => strHas (lowerStr (env.vendorTypeOf idx)) kw)) &&
  (resolveClass env idx (env.classOf idx) == some "port")

/-- The acceptance condition of the port branch, evaluated against the set
of logical indexes already claimed. -/
def portAccepted (env : SnmpEnv) (claimed : List Int) (idx : Int) : Bool :=
  (!(portNameExcluded (env.nameOf idx)) && !(portNameExcluded (env.descrOf idx))) &&
  (match getMapping env idx (env.descrOf idx) with
   | some portId =>
     (!(portId == 0)) && (env.ifTable.find? (fun kv => kv.1 == portId)).isSome &&
       !(claimed.contains portId)
   | none => false)

/- ---------------------------------------------------------------- -/
/- Concrete instances used by counterexamples and witnesses         -/
/- ---------------------------------------------------------------- -/

/-- A row literal with the given ContainedIn, ParentRelPos and class. -/
def mkRow (ci rp cls : String) : ERow :=
  { containedIn := ci, relPos := rp, eclass := cls, vendorType := "", name := "",
    descr := "" }

/-- Two retained rows: 10 is an orphan (its parent 99 is absent from the
table) and 20 is a child of 10; the intended descending-ParentRelPos
filtering would visit the child 20 before the orphan 10. -/
def ctableC3 : List (Int × ERow) :=
  [(10, mkRow "99" "1" "module"), (20, mkRow "10" "5" "module")]

/-- Vendor types marking 10 as the upper and 11 as the lower module bay. -/
def vendorC5 : Int → String := fun i =>
  if i == 10 then "cevContainerUpperModuleBay"
  else if i == 11 then "cevContainerLowerModuleBay"
  else ""

/-- A dual-bay table where both bays live under the chassis: the upper bay
has one child (13) and the lower bay one child (12). -/
def ctableW5 : List (Int × ERow) :=
  [(1, mkRow "0" "0" "chassis"), (10, mkRow "1" "1" "container"),
   (11, mkRow "1" "2" "container"), (12, mkRow "11" "1" "module"),
   (13, mkRow "10" "1" "module")]

/-- A chassis and a three-deep chain of power-supply rows 2 → 3 → 4. -/
def ctableC10 : List (Int × ERow) :=
  [(1, mkRow "0" "0" "chassis"), (2, mkRow "1" "1" "powerSupply"),
   (3, mkRow "2" "1" "powerSupply"), (4, mkRow "3" "1" "powerSupply")]

/-- An IPv4 address table whose first entry belongs to interface 5 and whose
second entry belongs to interface 7. -/
def ipTableC8 : List (String × IpRow) :=
  [("10.0.0.1", { ipAdEntIfIndex := some "5" }),
   ("10.0.0.2", { ipAdEntIfIndex := some "7" })]

/-- A one-entry IPv4 address table whose single entry belongs to
interface 7. -/
def ipTableC8single : List (String × IpRow) :=
  [("10.0.0.2", { ipAdEntIfIndex := some "7" })]

/-- A port row whose alias mapping resolves to the logical index 0, which
is present in the interface table. -/
def envC6 : SnmpEnv :=
  { physicalIndexes := [(5, "1")],
    containedInOf := fun _ => "1",
    classOf := fun _ => "port",
    vendorTypeOf := fun _ => "cevporttype",
    descrOf := fun _ => "GigabitEthernet0-1",
    nameOf := fun _ => "GigabitEthernet0-1",
    vendorTypeProp := fun _ => "cevporttype",
    entAlias := fun _ => some 0,
    ifTable := [(0, { ifDescr := "x", suffix := 0 })] }

/-- A port row whose alias mapping resolves to the logical index 7. -/
def envW6 : SnmpEnv :=
  { physicalIndexes := [(5, "1")],
    containedInOf := fun _ => "1",
    classOf := fun _ => "port",
    vendorTypeOf := fun _ => "cevporttype",
    descrOf := fun _ => "GigabitEthernet0-1",
    nameOf := fun _ => "GigabitEthernet0-1",
    vendorTypeProp := fun _ => "cevporttype",
    entAlias := fun _ => some 7,
    ifTable := [(7, { ifDescr := "eth0", suffix := 7 })] }

/-- An environment whose raw entPhysicalParentRelPos table is empty. -/
def envC4a : SnmpEnv :=
  { physicalIndexes := [],
    containedInOf := fun _ => "",
    classOf := fun _ => "",
    vendorTypeOf := fun _ => "",
    descrOf := fun _ => "",
    nameOf := fun _ => "",
    vendorTypeProp := fun _ => "",
    entAlias := fun _ => none,
    ifTable := [] }

/-- An environment retaining a single module row and no chassis. -/
def envC4b : SnmpEnv :=
  { physicalIndexes := [(1, "0")],
    containedInOf := fun _ => "1",
    classOf := fun _ => "module",
    vendorTypeOf := fun _ => "x",
    descrOf := fun _ => "d",
    nameOf := fun _ => "n",
    vendorTypeProp := fun _ => "x",
    entAlias := fun _ => none,
    ifTable := [] }

/-- An environment whose single row has an empty ParentRelPos. -/
def envW7 : SnmpEnv :=
  { physicalIndexes := [(5, "")],
    containedInOf := fun _ => "1",
    classOf := fun _ => "module",
    vendorTypeOf := fun _ => "x",
    descrOf := fun _ => "d",
    nameOf := fun _ => "n",
    vendorTypeProp := fun _ => "x",
    entAlias := fun _ => none,
    ifTable := [] }

/-- An abstract continuation for the tail of `discover`. -/
def restC4 : ETState → List String × List String := fun _ => (["r"], ["a"])

/-- A chassis (1), a module (2) under it, and a port (3) on the module. -/
def ctableW9 : List (Int × ERow) :=
  [(1, mkRow "0" "0" "chassis"), (2, mkRow "1" "1" "module"),
   (3, mkRow "2" "1" "port")]

/-- The addressing state for a chassis (1), one module (2) and two ports
(3, 4) sharing the same raw address. -/
def stateW1 : AState :=
  { rp := [(1, "0")], module_list := [2], port_list := [3, 4],
    chassis_list := [1], exclusion_list := [], excluded_models := [],
    entity_table :=
      [(1, mkRow "0" "0" "chassis"), (2, mkRow "1" "1" "module"),
       (3, mkRow "2" "1" "port"), (4, mkRow "2" "1" "port")] }

/-- The addressing state produced by running `add_relative_paths` on
`stateW1`: the module got address `0/1`, the first port `0/1/1`, and the
colliding second port `0/1/1001`. -/
def stateW1out : AState :=
  { stateW1 with rp := [(1, "0"), (2, "0/1"), (3, "0/1/1"), (4, "0/1/1001")] }

/-- The retained row of `envC4b`. -/
def rowC4b : ERow :=
  { containedIn := "1", relPos := "0", eclass := "module", vendorType := "x",
    name := "n", descr := "d" }

/-- The loader state produced for `envC4b`. -/
def etStateC4b : ETState :=
  { resultDict := [(1, rowC4b)],
    exclusionList := [], chassisList := [], portList := [],
    powerSupplyList := [], portMapping := [], fetched := [1, 1] }

/-- The retained row of `envW6`. -/
def rowW6 : ERow :=
  { containedIn := "1", relPos := "1", eclass := "port",
    vendorType := "cevporttype", name := "GigabitEthernet0-1",
    descr := "GigabitEthernet0-1" }

/-- The loader state produced for `envW6`. -/
def etStateW6 : ETState :=
  { resultDict := [(5, rowW6)],
    exclusionList := [], chassisList := [], portList := [5],
    powerSupplyList := [], portMapping := [(5, 7)], fetched := [5, 5] }

/-- The loader state produced for `envW7`. -/
def etStateW7 : ETState :=
  { resultDict := [], exclusionList := [5], chassisList := [], portList := [],
    powerSupplyList := [], portMapping := [], fetched := [] }

/-- The repaired table produced for `ctableW5`: the lower-bay child 12 was
re-parented under bay 10 at position 1 + 1. -/
def ctableW5out : List (Int × ERow) :=
  [(1, mkRow "0" "0" "chassis"), (10, mkRow "1" "1" "container"),
   (11, mkRow "1" "2" "container"), (12, mkRow "10" "2" "module"),
   (13, mkRow "10" "1" "module")]

/-- The retained row of `envC6`. -/
def rowC6 : ERow :=
  { containedIn := "1", relPos := "1", eclass := "port",
    vendorType := "cevporttype", name := "GigabitEthernet0-1",
    descr := "GigabitEthernet0-1" }

/-- The loader state produced for `envC6`: the port row is dropped because
its resolved logical index 0 is falsy in the truthiness test of the source. -/
def etStateC6 : ETState :=
  { resultDict := [(5, rowC6)],
    exclusionList := [], chassisList := [], portList := [],
    powerSupplyList := [], portMapping := [], fetched := [5, 5] }

/- ================================================================ -/
/- Theorems                                                         -/
/- ================================================================ -/

/- Dictionary lemmas -/

theorem dictGet_dictSet_self (d : List (Int × String)) (k : Int) (v : String) :
    dictGet (dictSet d k v) k = some v := by
  induction d with
  | nil => simp [dictGet, dictSet]
  | cons kv d ih =>
    cases h : kv.1 == k with
    | true => simp [dictGet, dictSet, h]
    | false => simp [dictGet, dictSet, h, ih]

theorem dictGet_dictSet_ne (d : List (Int × String)) (k j : Int) (v : String)
    (hne : j ≠ k) : dictGet (dictSet d k v) j = dictGet d j := by
  have hkj : ¬ (k == j) = true := by
    simp [beq_iff_eq]
    exact Ne.symm hne
  induction d with
  | nil => simp [dictGet, dictSet, hkj]
  | cons kv d ih =>
    cases h : kv.1 == k with
    | true =>
      have hke : kv.1 = k := by simpa [beq_iff_eq] using h
      simp [dictGet, dictSet, h, hke, hkj]
    | false => simp [dictGet, dictSet, h, ih]

theorem mem_dictValues_of_dictGet (d : List (Int × String)) (k : Int) (v : String)
    (h : dictGet d k = some v) : v ∈ dictValues d := by
  induction d with
  | nil => simp [dictGet] at h
  | cons kv d ih =>
    cases hk : kv.1 == k with
    | true =>
      rw [dictGet, hk] at h
      simp at h
      simp [dictValues, h]
    | false =>
      rw [dictGet, hk] at h
      simp at h
      have := ih h
      simp [dictValues] at this ⊢
      exact Or.inr this

theorem dictGet_eq_none_iff (d : List (Int × String)) (k : Int) :
    dictGet d k = none ↔ k ∉ d.map (fun kv => kv.1) := by
  induction d with
  | nil => simp [dictGet]
  | cons kv d ih =>
    cases hk : kv.1 == k with
    | true =>
      have hke : kv.1 = k := by simpa [beq_iff_eq] using hk
      simp [dictGet, hk, hke]
    | false =>
      have hke : ¬ kv.1 = k := by simpa [beq_iff_eq] using hk
      simp only [dictGet, hk, Bool.false_eq_true, if_false, ih, List.map_cons,
        List.mem_cons, not_or]
      constructor
      · intro hh
        exact ⟨fun he => hke he.symm, hh⟩
      · intro hh
        exact hh.2

theorem dictSet_of_get_none (d : List (Int × String)) (k : Int) (v : String)
    (h : dictGet d k = none) : dictSet d k v = d ++ [(k, v)] := by
  induction d with
  | nil => simp [dictSet]
  | cons kv d ih =>
    cases hk : kv.1 == k with
    | true => rw [dictGet, hk] at h; simp at h
    | false =>
      rw [dictGet, hk] at h
      simp at h
      simp [dictSet, hk, ih h]

theorem dictGet_append (d e : List (Int × String)) (k : Int) :
    dictGet (d ++ e) k =
      match dictGet d k with
      | some v => some v
      | none => dictGet e k := by
  induction d with
  | nil => simp [dictGet]
  | cons kv d ih =>
    cases hk : kv.1 == k with
    | true => simp [dictGet, hk]
    | false => simp [dictGet, hk, ih]

theorem keys_dictSet_of_get_some (d : List (Int × String)) (k : Int) (v : String)
    (h : dictGet d k ≠ none) :
    (dictSet d k v).map (fun kv => kv.1) = d.map (fun kv => kv.1) := by
  induction d with
  | nil => simp [dictGet] at h
  | cons kv d ih =>
    cases hk : kv.1 == k with
    | true =>
      have hke : kv.1 = k := by simpa [beq_iff_eq] using hk
      simp [dictSet, hk, hke]
    | false =>
      rw [dictGet, hk] at h
      simp at h
      simp [dictSet, hk, ih h]

theorem keysNodup_dictSet (d : List (Int × String)) (k : Int) (v : String)
    (h : keysNodup d) : keysNodup (dictSet d k v) := by
  cases hg : dictGet d k with
  | none =>
    rw [dictSet_of_get_none d k v hg]
    have hk : k ∉ d.map (fun kv => kv.1) := (dictGet_eq_none_iff d k).mp hg
    unfold keysNodup at h ⊢
    simp [List.nodup_append, h]
    intro a ha
    exact hk (by simpa using List.mem_map_of_mem (fun kv => kv.1) ha)
  | some w =>
    unfold keysNodup at h ⊢
    rw [keys_dictSet_of_get_some d k v (by simp [hg])]
    exact h

theorem countKey_eq_one (d : List (Int × String)) (k : Int) (v : String)
    (hnd : keysNodup d) (h : dictGet d k = some v) : countKey d k = 1 := by
  induction d with
  | nil => simp [dictGet] at h
  | cons kv d ih =>
    have hnd2 : keysNodup d := by
      unfold keysNodup at hnd ⊢
      exact (List.nodup_cons.mp hnd).2
    have hkv : kv.1 ∉ d.map (fun kv => kv.1) := by
      unfold keysNodup at hnd
      exact (List.nodup_cons.mp hnd).1
    cases hk : kv.1 == k with
    | true =>
      have hke : kv.1 = k := by simpa [beq_iff_eq] using hk
      have hfil : d.filter (fun kv2 => kv2.1 == k) = [] := by
        rw [List.filter_eq_nil_iff]
        intro a ha hcon
        have ha2 : a.1 = k := by simpa [beq_iff_eq] using hcon
        exact hkv (by
          rw [hke]
          rw [← ha2]
          exact List.mem_map_of_mem (fun kv => kv.1) ha)
      simp [countKey, hk, hfil]
    | false =>
      rw [dictGet, hk] at h
      simp at h
      have := ih hnd2 h
      simpa [countKey, hk] using this

/- Table lemmas -/

theorem tableGet_tableSet_self (t : List (Int × ERow)) (k : Int) (r0 row : ERow)
    (h : tableGet t k = some r0) : tableGet (tableSet t k row) k = some row := by
  induction t with
  | nil => simp [tableGet] at h
  | cons kv t ih =>
    cases hk : kv.1 == k with
    | true => simp [tableGet, tableSet, hk]
    | false =>
      rw [tableGet, hk] at h
      simp at h
      simp [tableGet, tableSet, hk, ih h]

theorem tableGet_tableSet_ne (t : List (Int × ERow)) (k j : Int) (row : ERow)
    (hne : j ≠ k) : tableGet (tableSet t k row) j = tableGet t j := by
  have hkj : ¬ (k == j) = true := by
    simp [beq_iff_eq]
    exact Ne.symm hne
  induction t with
  | nil => simp [tableSet]
  | cons kv t ih =>
    cases hk : kv.1 == k with
    | true =>
      have hke : kv.1 = k := by simpa [beq_iff_eq] using hk
      simp [tableGet, tableSet, hk, hke, hkj]
    | false => simp [tableGet, tableSet, hk, ih]

/- Collision resolver: a successful result never collides with an
   assigned value. -/

theorem getPortRelativePath_not_mem :
    ∀ (fuel : Nat) (vals : List String) (rel r : String),
      getPortRelativePath fuel vals rel = some r → r ∉ vals := by
  intro fuel
  induction fuel with
  | zero => intro vals rel r h; simp [getPortRelativePath] at h
  | succ fuel ih =>
    intro vals rel r h
    simp only [getPortRelativePath] at h
    by_cases hm : rel ∈ vals
    · rw [if_pos hm] at h
      cases hb : bumpLastSegment rel with
      | none => rw [hb] at h; simp at h
      | some result =>
        rw [hb] at h
        simp only [if_pos hm] at h
        exact ih vals result r h
    · rw [if_neg hm] at h
      cases h
      exact hm

theorem dictValues_append (d e : List (Int × String)) :
    dictValues (d ++ e) = dictValues d ++ dictValues e := by
  simp [dictValues]

theorem dictGet_dictSet_isSome (d : List (Int × String)) (k j : Int) (v : String)
    (h : (dictGet d j).isSome = true) :
    (dictGet (dictSet d k v) j).isSome = true := by
  by_cases hjk : j = k
  · subst hjk
    simp [dictGet_dictSet_self]
  · rw [dictGet_dictSet_ne d k j v hjk]
    exact h

/- Invariants of the two loops of add_relative_paths -/

theorem modulePhase_invariants (fuel : Nat) :
    ∀ (ms : List Int) (st st2 : AState), modulePhase fuel st ms = some st2 →
      st2.port_list = st.port_list ∧
      st2.exclusion_list = st.exclusion_list ∧
      (∀ k, k ∉ ms → dictGet st2.rp k = dictGet st.rp k) ∧
      (keysNodup st.rp → keysNodup st2.rp) ∧
      (∀ k, (dictGet st.rp k).isSome = true → (dictGet st2.rp k).isSome = true) ∧
      (∀ m ∈ ms, m ∉ st.exclusion_list → (dictGet st2.rp m).isSome = true) := by
  intro ms
  induction ms with
  | nil =>
    intro st st2 h
    simp [modulePhase] at h
    subst h
    exact ⟨rfl, rfl, fun k _ => rfl, id, fun k h => h, by simp⟩
  | cons m rest ih =>
    intro st st2 h
    rw [modulePhase] at h
    by_cases hex : m ∈ st.exclusion_list
    · rw [if_pos hex] at h
      obtain ⟨h1, h2, h3, h4, h5, h6⟩ := ih _ _ h
      refine ⟨h1, h2, fun k hk => h3 k (fun hin => hk (List.mem_cons_of_mem m hin)),
        h4, h5, ?_⟩
      intro m2 hm2 hm2ex
      rcases List.mem_cons.mp hm2 with rfl | hm2r
      · exact absurd hex hm2ex
      · exact h6 m2 hm2r hm2ex
    · rw [if_neg hex] at h
      cases hpre : getRelativePath fuel st m with
      | none => rw [hpre] at h; simp at h
      | some pre =>
        rw [hpre] at h
        simp only at h
        cases hrid : getResourceId fuel st m with
        | none => rw [hrid] at h; simp at h
        | some rid =>
          rw [hrid] at h
          simp only at h
          obtain ⟨h1, h2, h3, h4, h5, h6⟩ := ih _ _ h
          refine ⟨h1, h2, ?_, ?_, ?_, ?_⟩
          · intro k hk
            have hkm : k ≠ m := fun he => hk (he ▸ List.mem_cons_self m rest)
            have hkr : k ∉ rest := fun hin => hk (List.mem_cons_of_mem m hin)
            rw [h3 k hkr]
            exact dictGet_dictSet_ne st.rp m k _ hkm
          · intro hnd
            exact h4 (keysNodup_dictSet st.rp m _ hnd)
          · intro k hks
            exact h5 k (dictGet_dictSet_isSome st.rp m k _ hks)
          · intro m2 hm2 hm2ex
            rcases List.mem_cons.mp hm2 with rfl | hm2r
            · exact h5 m2 (by simp [dictGet_dictSet_self])
            · exact h6 m2 hm2r hm2ex

theorem portPhase_invariants (fuel : Nat) :
    ∀ (ps : List Int) (st st2 : AState), portPhase fuel st ps = some st2 →
      st2.exclusion_list = st.exclusion_list ∧
      st2.module_list = st.module_list ∧
      (∀ k, k ∉ ps → dictGet st2.rp k = dictGet st.rp k) ∧
      (keysNodup st.rp → keysNodup st2.rp) ∧
      (∀ k, (dictGet st.rp k).isSome = true → (dictGet st2.rp k).isSome = true) ∧
      (∀ p ∈ ps, p ∉ st.exclusion_list → (dictGet st2.rp p).isSome = true) := by
  intro ps
  induction ps with
  | nil =>
    intro st st2 h
    simp [portPhase] at h
    subst h
    exact ⟨rfl, rfl, fun k _ => rfl, id, fun k h => h, by simp⟩
  | cons p rest ih =>
    intro st st2 h
    rw [portPhase] at h
    by_cases hex : p ∈ st.exclusion_list
    · rw [if_pos hex] at h
      obtain ⟨h1, h2, h3, h4, h5, h6⟩ := ih _ _ h
      refine ⟨h1, h2, fun k hk => h3 k (fun hin => hk (List.mem_cons_of_mem p hin)),
        h4, h5, ?_⟩
      intro p2 hp2 hp2ex
      rcases List.mem_cons.mp hp2 with rfl | hp2r
      · exact absurd hex hp2ex
      · exact h6 p2 hp2r hp2ex
    · rw [if_neg hex] at h
      cases hpre : getRelativePath fuel st p with
      | none => rw [hpre] at h; simp at h
      | some pre =>
        rw [hpre] at h
        simp only at h
        cases hrid : getResourceId fuel st p with
        | none => rw [hrid] at h; simp at h
        | some rid =>
          rw [hrid] at h
          simp only at h
          cases haddr : getPortRelativePath fuel (dictValues st.rp) (pre ++ "/" ++ rid) with
          | none => rw [haddr] at h; simp at h
          | some addr =>
            rw [haddr] at h
            simp only at h
            obtain ⟨h1, h2, h3, h4, h5, h6⟩ := ih _ _ h
            refine ⟨h1, h2, ?_, ?_, ?_, ?_⟩
            · intro k hk
              have hkp : k ≠ p := fun he => hk (he ▸ List.mem_cons_self p rest)
              have hkr : k ∉ rest := fun hin => hk (List.mem_cons_of_mem p hin)
              rw [h3 k hkr]
              exact dictGet_dictSet_ne st.rp p k _ hkp
            · intro hnd
              exact h4 (keysNodup_dictSet st.rp p _ hnd)
            · intro k hks
              exact h5 k (dictGet_dictSet_isSome st.rp p k _ hks)
            · intro p2 hp2 hp2ex
              rcases List.mem_cons.mp hp2 with rfl | hp2r
              · exact h5 p2 (by simp [dictGet_dictSet_self])
              · exact h6 p2 hp2r hp2ex

theorem portPhase_spec (fuel : Nat) :
    ∀ (ps : List Int) (st st2 : AState),
      ps.Nodup → (∀ p ∈ ps, dictGet st.rp p = none) →
      portPhase fuel st ps = some st2 →
      (∀ v, v ∈ dictValues st.rp → v ∈ dictValues st2.rp) ∧
      (∀ p ∈ ps, p ∉ st.exclusion_list →
        ∃ a, dictGet st2.rp p = some a ∧ a ∉ dictValues st.rp) ∧
      (∀ p ∈ ps, ∀ q ∈ ps, p ∉ st.exclusion_list → q ∉ st.exclusion_list →
        p ≠ q → ∀ a b, dictGet st2.rp p = some a → dictGet st2.rp q = some b →
        a ≠ b) := by
  intro ps
  induction ps with
  | nil =>
    intro st st2 _ _ h
    simp [portPhase] at h
    subst h
    exact ⟨fun v hv => hv, by simp, by simp⟩
  | cons p rest ih =>
    intro st st2 hnd hfresh h
    have hpnr : p ∉ rest := (List.nodup_cons.mp hnd).1
    have hndr : rest.Nodup := (List.nodup_cons.mp hnd).2
    rw [portPhase] at h
    by_cases hex : p ∈ st.exclusion_list
    · rw [if_pos hex] at h
      have hfresh2 : ∀ q ∈ rest,
          dictGet (AState.rp { st with port_list := st.port_list.erase p }) q = none :=
        fun q hq => hfresh q (List.mem_cons_of_mem p hq)
      obtain ⟨hmono, hexist, hpair⟩ := ih _ _ hndr hfresh2 h
      refine ⟨hmono, ?_, ?_⟩
      · intro p2 hp2 hp2ex
        rcases List.mem_cons.mp hp2 with rfl | hp2r
        · exact absurd hex hp2ex
        · exact hexist p2 hp2r hp2ex
      · intro p2 hp2 q2 hq2 hp2ex hq2ex hne a b ha hb
        rcases List.mem_cons.mp hp2 with rfl | hp2r
        · exact absurd hex hp2ex
        rcases List.mem_cons.mp hq2 with rfl | hq2r
        · exact absurd hex hq2ex
        exact hpair p2 hp2r q2 hq2r hp2ex hq2ex hne a b ha hb
    · rw [if_neg hex] at h
      cases hpre : getRelativePath fuel st p with
      | none => rw [hpre] at h; simp at h
      | some pre =>
        rw [hpre] at h
        simp only at h
        cases hrid : getResourceId fuel st p with
        | none => rw [hrid] at h; simp at h
        | some rid =>
          rw [hrid] at h
          simp only at h
          cases haddr : getPortRelativePath fuel (dictValues st.rp) (pre ++ "/" ++ rid) with
          | none => rw [haddr] at h; simp at h
          | some addr =>
            rw [haddr] at h
            simp only at h
            have haddrnm : addr ∉ dictValues st.rp :=
              getPortRelativePath_not_mem fuel (dictValues st.rp) _ addr haddr
            have hfp : dictGet st.rp p = none := hfresh p (List.mem_cons_self p rest)
            have hset : dictSet st.rp p addr = st.rp ++ [(p, addr)] :=
              dictSet_of_get_none st.rp p addr hfp
            have hvals1 : dictValues (dictSet st.rp p addr) =
                dictValues st.rp ++ [addr] := by
              rw [hset, dictValues_append]
              rfl
            have hfresh2 : ∀ q ∈ rest,
                dictGet (AState.rp { st with rp := dictSet st.rp p addr }) q = none := by
              intro q hq
              have hqp : q ≠ p := fun he => hpnr (he ▸ hq)
              show dictGet (dictSet st.rp p addr) q = none
              rw [dictGet_dictSet_ne st.rp p q addr hqp]
              exact hfresh q (List.mem_cons_of_mem p hq)
            obtain ⟨hmono, hexist, hpair⟩ := ih _ _ hndr hfresh2 h
            obtain ⟨_, _, hstable, _, _, _⟩ := portPhase_invariants fuel rest _ _ h
            have hgetp : dictGet st2.rp p = some addr := by
              rw [hstable p hpnr]
              show dictGet (dictSet st.rp p addr) p = some addr
              exact dictGet_dictSet_self st.rp p addr
            have hmono0 : ∀ v, v ∈ dictValues st.rp →
                v ∈ dictValues (dictSet st.rp p addr) := by
              intro v hv
              rw [hvals1]
              exact List.mem_append_left _ hv
            have haddr1 : addr ∈ dictValues (dictSet st.rp p addr) := by
              rw [hvals1]
              exact List.mem_append_right _ (List.mem_singleton.mpr rfl)
            refine ⟨fun v hv => hmono v (hmono0 v hv), ?_, ?_⟩
            · intro p2 hp2 hp2ex
              rcases List.mem_cons.mp hp2 with rfl | hp2r
              · exact ⟨addr, hgetp, haddrnm⟩
              · obtain ⟨a, hget, hnm⟩ := hexist p2 hp2r hp2ex
                exact ⟨a, hget, fun hmem => hnm (hmono0 a hmem)⟩
            · intro p2 hp2 q2 hq2 hp2ex hq2ex hne a b ha hb
              rcases List.mem_cons.mp hp2 with rfl | hp2r
              · rcases List.mem_cons.mp hq2 with rfl | hq2r
                · exact absurd rfl hne
                · have ha2 : a = addr := by
                    rw [hgetp] at ha
                    exact (Option.some.inj ha).symm
                  obtain ⟨b2, hgetb2, hbnm⟩ := hexist q2 hq2r hq2ex
                  have hb2 : b = b2 := by
                    rw [hgetb2] at hb
                    exact (Option.some.inj hb).symm
                  subst ha2
                  subst hb2
                  intro he
                  exact hbnm (he ▸ haddr1)
              · rcases List.mem_cons.mp hq2 with rfl | hq2r
                · have hb2 : b = addr := by
                    rw [hgetp] at hb
                    exact (Option.some.inj hb).symm
                  obtain ⟨a2, hgeta2, hanm⟩ := hexist p2 hp2r hp2ex
                  have ha2 : a = a2 := by
                    rw [hgeta2] at ha
                    exact (Option.some.inj ha).symm
                  subst hb2
                  subst ha2
                  intro he
                  exact hanm (he ▸ haddr1)
                · exact hpair p2 hp2r q2 hq2r hp2ex hq2ex hne a b ha hb

/- Claim C1 and C2 -/

/-- C1: after `add_relative_paths`, two distinct retained (non-excluded)
port nodes never carry equal address strings, and every retained
non-excluded module or port node has exactly one binding in the
relative-path dictionary. -/
theorem claim_c1_port_address_uniqueness (fuel : Nat) (st st2 : AState)
    (hk : keysNodup st.rp)
    (hpn : st.port_list.Nodup)
    (hfresh : ∀ p ∈ st.port_list, dictGet st.rp p = none)
    (hdisj : ∀ p ∈ st.port_list, p ∉ st.module_list)
    (hrun : addRelativePaths fuel st = some st2) :
    (∀ p ∈ st.port_list, ∀ q ∈ st.port_list,
      p ∉ st.exclusion_list → q ∉ st.exclusion_list → p ≠ q →
      ∀ a b, dictGet st2.rp p = some a → dictGet st2.rp q = some b → a ≠ b) ∧
    (∀ n, (n ∈ st.module_list ∨ n ∈ st.port_list) → n ∉ st.exclusion_list →
      countKey st2.rp n = 1) := by
  rw [addRelativePaths] at hrun
  cases hmp : modulePhase fuel st st.module_list with
  | none => rw [hmp] at hrun; simp at hrun
  | some st1 =>
    rw [hmp] at hrun
    simp only at hrun
    obtain ⟨mport, mexcl, mstable, mnodup, msome, massign⟩ :=
      modulePhase_invariants fuel st.module_list st st1 hmp
    have hfresh1 : ∀ p ∈ st.port_list, dictGet st1.rp p = none := by
      intro p hp
      rw [mstable p (hdisj p hp)]
      exact hfresh p hp
    obtain ⟨pmono, pexist, ppair⟩ :=
      portPhase_spec fuel st.port_list st1 st2 hpn hfresh1 hrun
    obtain ⟨pexcl, pmod, pstable, pnodup, psome, passign⟩ :=
      portPhase_invariants fuel st.port_list st1 st2 hrun
    constructor
    · intro p hp q hq hpex hqex hne a b ha hb
      exact ppair p hp q hq (by rw [mexcl]; exact hpex) (by rw [mexcl]; exact hqex)
        hne a b ha hb
    · intro n hmem hnex
      have hnodup2 : keysNodup st2.rp := pnodup (mnodup hk)
      rcases hmem with hm | hp
      · have hnport : n ∉ st.port_list := fun hin => (hdisj n hin) hm
        have h1 : (dictGet st1.rp n).isSome = true := massign n hm hnex
        have h2 : dictGet st2.rp n = dictGet st1.rp n := pstable n hnport
        obtain ⟨a, ha⟩ := Option.isSome_iff_exists.mp h1
        exact countKey_eq_one st2.rp n a hnodup2 (by rw [h2]; exact ha)
      · obtain ⟨a, ha, _⟩ := pexist n hp (by rw [mexcl]; exact hnex)
        exact countKey_eq_one st2.rp n a hnodup2 ha

/-- C1 witness: on `stateW1` the two colliding ports end with the distinct
addresses `0/1/1` and `0/1/1001`, each bound exactly once. -/
theorem claim_c1_witness :
    addRelativePaths 5 stateW1 = some stateW1out ∧
    ("0/1/1" : String) ≠ "0/1/1001" ∧ countKey stateW1out.rp 3 = 1 :=
  ⟨by decide,
   (claim_c1_port_address_uniqueness 5 stateW1 stateW1out
      (by unfold keysNodup; decide) (by decide)
      (by decide) (by decide) (by decide)).1 3 (by decide) 4 (by decide) (by decide)
      (by decide) (by decide) "0/1/1" "0/1/1001" (by decide) (by decide),
   (claim_c1_port_address_uniqueness 5 stateW1 stateW1out
      (by unfold keysNodup; decide) (by decide)
      (by decide) (by decide) (by decide)).2 3 (Or.inr (by decide)) (by decide)⟩

/-- C2: a successful run of `_get_port_relative_path` never returns an
address already assigned, and when the computed address collides while its
single bump (last segment plus 1000) is fresh, the result is exactly that
bump. -/
theorem claim_c2_collision_offset (vals : List String) (rel c : String) :
    (∀ (fuel : Nat) (r : String), getPortRelativePath fuel vals rel = some r →
      r ∉ vals) ∧
    (rel ∈ vals → bumpLastSegment rel = some c → c ∉ vals →
      getPortRelativePath 2 vals rel = some c) := by
  constructor
  · intro fuel r h
    exact getPortRelativePath_not_mem fuel vals rel r h
  · intro h1 h2 h3
    rw [getPortRelativePath, if_pos h1, h2]
    simp only [if_pos h1]
    rw [getPortRelativePath, if_neg h3]

/-- C2 witness: with `0/1/1` already assigned, a port computing `0/1/1`
receives `0/1/1001`; a returned address is never an assigned one. -/
theorem claim_c2_witness :
    getPortRelativePath 2 ["0/1/1"] "0/1/1" = some "0/1/1001" ∧
    ("0/1/2001" : String) ∉ ["0/1/1", "0/1/1001"] :=
  ⟨(claim_c2_collision_offset ["0/1/1"] "0/1/1" "0/1/1001").2 (by decide) (by decide)
     (by decide),
   (claim_c2_collision_offset ["0/1/1", "0/1/1001"] "0/1/1" "").1 3 "0/1/2001"
     (by decide)⟩

/- Claim C3: the exclusion propagation -/

theorem filterByColumn_no_values (proj : ERow → String) :
    ∀ table : List (Int × ERow), filterByColumn proj [] table = [] := by
  intro table
  induction table with
  | nil => rfl
  | cons kv rest ih =>
    rw [filterByColumn, if_neg (fun h => Bool.noConfusion h), ih]

/-- The value-less ContainedIn filter matches no row, so the element list of
the pass is always empty. -/
theorem visitOrder_eq_nil (table : List (Int × ERow)) : visitOrder table = [] := by
  rw [visitOrder, filterByColumn_no_values]
  rfl

/-- `_filter_entity_table` returns the exclusion list unchanged on every
input: its loop iterates an empty element list. -/
theorem filterEntityTablePass_eq (table : List (Int × ERow)) (excl : List Int) :
    filterEntityTablePass table excl = some excl := by
  rw [filterEntityTablePass, visitOrder_eq_nil]
  rfl

/-- C3: the exclusion propagation excludes nothing.  On `ctableC3` the pass
returns the empty exclusion list although the retained node 10 has no
retained parent (id 99 is absent from the table), so the claimed one-pass
invariant fails on every table with an orphan row.  The intended filtering,
spec-modelled from the docstring of `_filter_entity_table`, would exclude
the orphan 10 at the same input — and still not its child 20, which the
descending ParentRelPos order visits before 10 is excluded. -/
theorem claim_c3_filter_never_excludes :
    filterEntityTablePass ctableC3 [] = some [] ∧
    (10 : Int) ∈ tableKeys ctableC3 ∧ tableGet ctableC3 99 = none ∧
    (10 : Int) ∉ ([] : List Int) ∧
    intendedFilterPass ctableC3 [] = some [10] := by decide

/- Claim C4: the two fatal cases of discover -/

/-- C4: `discover` raises the entity-table error when the filtered inventory
table is empty, and returns an explicitly empty resources/attributes result
when no chassis is retained, for any continuation of the pipeline. -/
theorem claim_c4_fatal_cases (env : SnmpEnv)
    (rest : ETState → List String × List String) (st : ETState) :
    (getEntityTable env = some st → st.resultDict = [] →
      discover env rest = Except.error entityTableErrorMsg) ∧
    (getEntityTable env = some st → st.resultDict ≠ [] → st.chassisList = [] →
      discover env rest = Except.ok ([], [])) := by
  constructor
  · intro h1 h2
    have hload : loadSnmpTables env = Except.error entityTableErrorMsg := by
      unfold loadSnmpTables
      simp only [h1, h2]
      simp
    unfold discover
    rw [hload]
  · intro h1 h2 h3
    have hlen : ¬ st.resultDict.length < 1 := by
      cases hd : st.resultDict with
      | nil => exact absurd hd h2
      | cons a l => simp [hd]
    have hload : loadSnmpTables env = Except.ok st := by
      unfold loadSnmpTables
      simp only [h1]
      rw [if_neg hlen]
    unfold discover
    rw [hload]
    simp only [h3]
    simp

/-- C4 witness: the empty raw table raises; a chassis-free but nonempty
table yields the empty result. -/
theorem claim_c4_witness :
    discover envC4a restC4 = Except.error entityTableErrorMsg ∧
    discover envC4b restC4 = Except.ok ([], []) :=
  ⟨(claim_c4_fatal_cases envC4a restC4 initETState).1 rfl rfl,
   (claim_c4_fatal_cases envC4b restC4 etStateC4b).2 rfl (by decide) rfl⟩

/- Claim C5: the dual-bay container repair -/

theorem insertSorted_perm (lt : α → α → Bool) (x : α) (l : List α) :
    (insertSorted lt x l).Perm (x :: l) := by
  induction l with
  | nil => simp [insertSorted]
  | cons y ys ih =>
    rw [insertSorted]
    by_cases h : lt y x = true
    · rw [if_pos h]
      exact (ih.cons y).trans (List.Perm.swap x y ys)
    · rw [if_neg h]

theorem sortBy_perm (lt : α → α → Bool) (l : List α) : (sortBy lt l).Perm l := by
  induction l with
  | nil => simp [sortBy]
  | cons y ys ih =>
    rw [sortBy]
    exact (insertSorted_perm lt y (sortBy lt ys)).trans (ih.cons y)

theorem childrenOfBay_nodup (table : List (Int × ERow)) (c : Int)
    (hkeys : (tableKeys table).Nodup) : (childrenOfBay table c).Nodup := by
  unfold childrenOfBay sortByRelPos
  have hperm := (sortBy_perm (fun a b => relPosKey a.2 < relPosKey b.2)
    (table.filter (fun kv => kv.2.containedIn == toString c))).map
    (fun kv => kv.1)
  rw [List.Perm.nodup_iff hperm]
  have hsub : ((table.filter (fun kv => kv.2.containedIn == toString c)).map
      (fun kv => kv.1)).Sublist (table.map (fun kv => kv.1)) :=
    (List.filter_sublist table).map (fun kv => kv.1)
  exact hsub.nodup hkeys

theorem lowerBayFold (upperContainer len : Int) :
    ∀ (children : List Int) (t t2 : List (Int × ERow)),
      children.Nodup →
      children.foldlM (lowerBayStep upperContainer len) t = some t2 →
      (∀ c ∈ children, ∀ row, tableGet t c = some row →
        ∀ n, parseInt row.relPos = some n →
        tableGet t2 c = some (repairedRow upperContainer len n row)) ∧
      (∀ k, k ∉ children → tableGet t2 k = tableGet t k) := by
  intro children
  induction children with
  | nil =>
    intro t t2 _ h
    simp [List.foldlM] at h
    subst h
    exact ⟨by simp, fun k _ => rfl⟩
  | cons c0 cs ih =>
    intro t t2 hnd h
    have hc0cs : c0 ∉ cs := (List.nodup_cons.mp hnd).1
    have hndcs : cs.Nodup := (List.nodup_cons.mp hnd).2
    rw [List.foldlM_cons] at h
    cases hstep : lowerBayStep upperContainer len t c0 with
    | none => rw [hstep] at h; simp at h
    | some t1 =>
      rw [hstep] at h
      simp only [Option.bind_eq_bind, Option.some_bind] at h
      rw [lowerBayStep] at hstep
      cases hrow0 : tableGet t c0 with
      | none => rw [hrow0] at hstep; simp at hstep
      | some row0 =>
        rw [hrow0] at hstep
        simp only at hstep
        cases hn0 : parseInt row0.relPos with
        | none => rw [hn0] at hstep; simp at hstep
        | some n0 =>
          rw [hn0] at hstep
          simp only [Option.some.injEq] at hstep
          obtain ⟨ih1, ih2⟩ := ih t1 t2 hndcs h
          constructor
          · intro c hc row hrow n hn
            rcases List.mem_cons.mp hc with rfl | hcr
            · rw [hrow0] at hrow
              have hroweq : row0 = row := Option.some.inj hrow
              subst hroweq
              rw [hn0] at hn
              have hneq : n0 = n := Option.some.inj hn
              subst hneq
              rw [ih2 c hc0cs, ← hstep]
              exact tableGet_tableSet_self t c row0 _ hrow0
            · apply ih1 c hcr row _ n hn
              rw [← hstep]
              have hcc0 : c ≠ c0 := fun he => hc0cs (he ▸ hcr)
              rw [tableGet_tableSet_ne t c0 c _ hcc0]
              exact hrow
          · intro k hk
            have hkc0 : k ≠ c0 := fun he => hk (he ▸ List.mem_cons_self c0 cs)
            have hkcs : k ∉ cs := fun hin => hk (List.mem_cons_of_mem c0 hin)
            rw [ih2 k hkcs, ← hstep]
            exact tableGet_tableSet_ne t c0 k _ hkc0

/-- C5: when both bays are found, every child of the lower bay is
re-parented onto the upper bay with its relative position offset by the
pre-existing child count of the upper bay, and all other rows are untouched;
this runs before address assignment (line 92 precedes line 94 of discover),
and the exclusion pass — whose loop iterates an empty element list —
consumes no parent pointers at all, so running the repair before or after it
yields identical results. -/
theorem claim_c5_dual_bay_repair (vendorOf : Int → String)
    (table table2 : List (Int × ERow)) (u l : Int)
    (hkeys : (tableKeys table).Nodup)
    (hl : findLowerBay vendorOf table = some l)
    (hu : findUpperBay vendorOf table = some u)
    (hrun : filterLowerBayContainers vendorOf table = some table2) :
    (∀ c ∈ childrenOfBay table l, ∀ row, tableGet table c = some row →
      ∀ n, parseInt row.relPos = some n →
      tableGet table2 c =
        some (repairedRow u ((childrenOfBay table u).length : Int) n row)) ∧
    (∀ k, k ∉ childrenOfBay table l → tableGet table2 k = tableGet table k) ∧
    (∀ excl, exclusionThenRepair vendorOf table excl =
      repairThenExclusion vendorOf table excl) := by
  refine ⟨?_, ?_, ?_⟩
  · have hrun2 := hrun
    unfold filterLowerBayContainers at hrun2
    simp only [hl, hu] at hrun2
    exact (lowerBayFold u ((childrenOfBay table u).length : Int)
      (childrenOfBay table l) table table2 (childrenOfBay_nodup table l hkeys) hrun2).1
  · have hrun2 := hrun
    unfold filterLowerBayContainers at hrun2
    simp only [hl, hu] at hrun2
    exact (lowerBayFold u ((childrenOfBay table u).length : Int)
      (childrenOfBay table l) table table2 (childrenOfBay_nodup table l hkeys) hrun2).2
  · intro excl
    unfold exclusionThenRepair repairThenExclusion
    simp only [filterEntityTablePass_eq, hrun]

/-- C5 witness: on `ctableW5` the lower-bay child 12 is re-parented onto
bay 10 at position 1 + 1 = 2, and the two step orders agree. -/
theorem claim_c5_witness :
    filterLowerBayContainers vendorC5 ctableW5 = some ctableW5out ∧
    tableGet ctableW5out 12 = some (mkRow "10" "2" "module") ∧
    exclusionThenRepair vendorC5 ctableW5 [] =
      repairThenExclusion vendorC5 ctableW5 [] :=
  ⟨by decide,
   (claim_c5_dual_bay_repair vendorC5 ctableW5 ctableW5out 10 11 (by decide)
      (by decide) (by decide) (by decide)).1 12 (by decide)
      (mkRow "11" "1" "module") (by decide) 1 (by decide),
   (claim_c5_dual_bay_repair vendorC5 ctableW5 ctableW5out 10 11 (by decide)
      (by decide) (by decide) (by decide)).2.2 []⟩

/- Claims C6 and C7: the entity-table loader -/

theorem portBranch_step (env : SnmpEnv) (st : ETState) (i : Int) :
    (∀ y, y ∈ (portBranch env st i).portList → y ∈ st.portList ∨ y = i) ∧
    (∀ y, y ∈ st.portList → y ∈ (portBranch env st i).portList) ∧
    ((portBranch env st i).fetched = st.fetched) ∧
    ((portBranch env st i).exclusionList = st.exclusionList) ∧
    ((portBranch env st i).resultDict = st.resultDict) ∧
    ((portBranch env st i).chassisList = st.chassisList) ∧
    ((portBranch env st i).powerSupplyList = st.powerSupplyList) ∧
    ((portBranch env st i).portMapping = st.portMapping ∨
      ∃ pid, pid ∉ st.portMapping.map (fun kv => kv.2) ∧
        (portBranch env st i).portMapping = st.portMapping ++ [(i, pid)]) := by
  have hid : (∀ y, y ∈ st.portList → y ∈ st.portList ∨ y = i) ∧
      (∀ y, y ∈ st.portList → y ∈ st.portList) ∧
      (st.fetched = st.fetched) ∧ (st.exclusionList = st.exclusionList) ∧
      (st.resultDict = st.resultDict) ∧ (st.chassisList = st.chassisList) ∧
      (st.powerSupplyList = st.powerSupplyList) ∧
      (st.portMapping = st.portMapping ∨
        ∃ pid, pid ∉ st.portMapping.map (fun kv => kv.2) ∧
          st.portMapping = st.portMapping ++ [(i, pid)]) :=
    ⟨fun y hy => Or.inl hy, fun y hy => hy, rfl, rfl, rfl, rfl, rfl, Or.inl rfl⟩
  unfold portBranch
  by_cases hn : (¬ portNameExcluded (env.nameOf i) = true ∧
      ¬ portNameExcluded (env.descrOf i) = true)
  · rw [if_pos hn]
    split
    · rename_i portId heq
      by_cases hc : (portId ≠ 0 ∧
          (env.ifTable.find? (fun kv => kv.1 == portId)).isSome = true ∧
          portId ∉ st.portMapping.map (fun kv => kv.2))
      · rw [if_pos hc]
        refine ⟨?_, ?_, rfl, rfl, rfl, rfl, rfl, Or.inr ⟨portId, hc.2.2, rfl⟩⟩
        · intro y hy
          rcases List.mem_append.mp hy with hy2 | hy2
          · exact Or.inl hy2
          · exact Or.inr (List.mem_singleton.mp hy2)
        · intro y hy
          exact List.mem_append_left _ hy
      · rw [if_neg hc]
        exact hid
    · exact hid
  · rw [if_neg hn]
    exact hid

set_option maxHeartbeats 1000000 in
theorem processEntityRow_step (env : SnmpEnv) (st : ETState) (i : Int) (rp : String) :
    (∀ y, y ∈ (processEntityRow env st i rp).portList → y ∈ st.portList ∨ y = i) ∧
    (∀ y, y ∈ st.portList → y ∈ (processEntityRow env st i rp).portList) ∧
    (∀ y, y ∈ (processEntityRow env st i rp).fetched → y ∈ st.fetched ∨ y = i) ∧
    (∀ y, y ∈ (processEntityRow env st i rp).exclusionList →
      y ∈ st.exclusionList ∨ y = i) ∧
    (∀ y, y ∈ st.exclusionList → y ∈ (processEntityRow env st i rp).exclusionList) ∧
    (∀ y, y ∈ tableKeys (processEntityRow env st i rp).resultDict →
      y ∈ tableKeys st.resultDict ∨ y = i) ∧
    (∀ ab, ab ∈ (processEntityRow env st i rp).portMapping →
      ab ∈ st.portMapping ∨ ab.1 = i) ∧
    (∀ ab, ab ∈ st.portMapping → ab ∈ (processEntityRow env st i rp).portMapping) ∧
    ((processEntityRow env st i rp).portMapping = st.portMapping ∨
      ∃ pid, pid ∉ st.portMapping.map (fun kv => kv.2) ∧
        (processEntityRow env st i rp).portMapping = st.portMapping ++ [(i, pid)]) := by
  simp only [processEntityRow]
  by_cases h1 : (rp == "") = true
  · rw [if_pos h1]
    refine ⟨?_, ?_, ?_, ?_, ?_, ?_, ?_, ?_, ?_⟩ <;>
      simp [tableKeys, List.mem_append] <;> tauto
  · rw [if_neg h1]
    by_cases h2 : (env.containedInOf i == "" ||
        entityTableBlackList.any fun kw => strHas (lowerStr (env.vendorTypeOf i)) kw) = true
    · rw [if_pos h2]
      by_cases h2a : (env.containedInOf i == "") = true
      · rw [if_pos h2a]
        refine ⟨?_, ?_, ?_, ?_, ?_, ?_, ?_, ?_, ?_⟩ <;>
          simp [tableKeys, List.mem_append] <;> tauto
      · rw [if_neg h2a]
        refine ⟨?_, ?_, ?_, ?_, ?_, ?_, ?_, ?_, ?_⟩ <;>
          simp [tableKeys, List.mem_append] <;> tauto
    · rw [if_neg h2]
      have h2a : ¬ (env.containedInOf i == "") = true := by
        intro hcon
        exact h2 (by simp [hcon])
      rw [if_neg h2a]
      split
      · refine ⟨?_, ?_, ?_, ?_, ?_, ?_, ?_, ?_, ?_⟩ <;>
          simp [tableKeys, List.mem_append] <;> tauto
      · rename_i cls hcls
        by_cases h3 : (strHasAny cls structuralClassKeywords) = true
        · rw [if_pos h3]
          by_cases h4 : (cls == "chassis") = true
          · rw [if_pos h4]
            refine ⟨?_, ?_, ?_, ?_, ?_, ?_, ?_, ?_, ?_⟩ <;>
              simp [tableKeys, List.mem_append] <;> tauto
          · rw [if_neg h4]
            by_cases h5 : (cls == "port") = true
            · rw [if_pos h5]
              obtain ⟨b1, b2, b3, b4, b5, b6, b7, b8⟩ := portBranch_step env
                { st with
                  fetched := (st.fetched ++ [i]) ++ [i],
                  resultDict := st.resultDict ++ [(i, entityRowOf env i rp cls)] } i
              refine ⟨b1, b2, ?_, ?_, ?_, ?_, ?_, ?_, b8⟩
              · intro y hy
                rw [b3] at hy
                simp only [List.mem_append] at hy
                rcases hy with (hy | hy) | hy
                · exact Or.inl hy
                · exact Or.inr (List.mem_singleton.mp hy)
                · exact Or.inr (List.mem_singleton.mp hy)
              · intro y hy
                rw [b4] at hy
                exact Or.inl hy
              · intro y hy
                rw [b4]
                exact hy
              · intro y hy
                rw [b5] at hy
                simp only [tableKeys, List.map_append, List.mem_append] at hy
                rcases hy with hy | hy
                · exact Or.inl hy
                · simp at hy
                  exact Or.inr hy
              · intro ab hab
                rcases b8 with hsame | ⟨pid, _, happ⟩
                · rw [hsame] at hab
                  exact Or.inl hab
                · rw [happ] at hab
                  rcases List.mem_append.mp hab with hab2 | hab2
                  · exact Or.inl hab2
                  · right
                    rw [List.mem_singleton.mp hab2]
              · intro ab hab
                rcases b8 with hsame | ⟨pid, _, happ⟩
                · rw [hsame]
                  exact hab
                · rw [happ]
                  exact List.mem_append_left _ hab
            · rw [if_neg h5]
              by_cases h6 : (cls == "powerSupply") = true
              · rw [if_pos h6]
                refine ⟨?_, ?_, ?_, ?_, ?_, ?_, ?_, ?_, ?_⟩ <;>
                  simp [tableKeys, List.mem_append] <;> tauto
              · rw [if_neg h6]
                refine ⟨?_, ?_, ?_, ?_, ?_, ?_, ?_, ?_, ?_⟩ <;>
                  simp [tableKeys, List.mem_append] <;> tauto
        · rw [if_neg h3]
          by_cases h4 : (cls == "chassis") = true
          · rw [if_pos h4]
            refine ⟨?_, ?_, ?_, ?_, ?_, ?_, ?_, ?_, ?_⟩ <;>
              simp [tableKeys, List.mem_append] <;> tauto
          · rw [if_neg h4]
            by_cases h5 : (cls == "port") = true
            · rw [if_pos h5]
              obtain ⟨b1, b2, b3, b4, b5, b6, b7, b8⟩ := portBranch_step env
                { st with fetched := (st.fetched ++ [i]) ++ [i] } i
              refine ⟨b1, b2, ?_, ?_, ?_, ?_, ?_, ?_, b8⟩
              · intro y hy
                rw [b3] at hy
                simp only [List.mem_append] at hy
                rcases hy with (hy | hy) | hy
                · exact Or.inl hy
                · exact Or.inr (List.mem_singleton.mp hy)
                · exact Or.inr (List.mem_singleton.mp hy)
              · intro y hy
                rw [b4] at hy
                exact Or.inl hy
              · intro y hy
                rw [b4]
                exact hy
              · intro y hy
                rw [b5] at hy
                exact Or.inl hy
              · intro ab hab
                rcases b8 with hsame | ⟨pid, _, happ⟩
                · rw [hsame] at hab
                  exact Or.inl hab
                · rw [happ] at hab
                  rcases List.mem_append.mp hab with hab2 | hab2
                  · exact Or.inl hab2
                  · right
                    rw [List.mem_singleton.mp hab2]
              · intro ab hab
                rcases b8 with hsame | ⟨pid, _, happ⟩
                · rw [hsame]
                  exact hab
                · rw [happ]
                  exact List.mem_append_left _ hab
            · rw [if_neg h5]
              by_cases h6 : (cls == "powerSupply") = true
              · rw [if_pos h6]
                refine ⟨?_, ?_, ?_, ?_, ?_, ?_, ?_, ?_, ?_⟩ <;>
                  simp [tableKeys, List.mem_append] <;> tauto
              · rw [if_neg h6]
                refine ⟨?_, ?_, ?_, ?_, ?_, ?_, ?_, ?_, ?_⟩ <;>
                  simp [tableKeys, List.mem_append] <;> tauto

theorem processEntityRows_step (env : SnmpEnv) :
    ∀ (rows : List (Int × String)) (st : ETState),
      (∀ y, y ∈ (processEntityRows env st rows).portList →
        y ∈ st.portList ∨ y ∈ rows.map (fun kv => kv.1)) ∧
      (∀ y, y ∈ st.portList → y ∈ (processEntityRows env st rows).portList) ∧
      (∀ y, y ∈ (processEntityRows env st rows).fetched →
        y ∈ st.fetched ∨ y ∈ rows.map (fun kv => kv.1)) ∧
      (∀ y, y ∈ (processEntityRows env st rows).exclusionList →
        y ∈ st.exclusionList ∨ y ∈ rows.map (fun kv => kv.1)) ∧
      (∀ y, y ∈ st.exclusionList → y ∈ (processEntityRows env st rows).exclusionList) ∧
      (∀ y, y ∈ tableKeys (processEntityRows env st rows).resultDict →
        y ∈ tableKeys st.resultDict ∨ y ∈ rows.map (fun kv => kv.1)) ∧
      (∀ ab, ab ∈ (processEntityRows env st rows).portMapping →
        ab ∈ st.portMapping ∨ ab.1 ∈ rows.map (fun kv => kv.1)) ∧
      (∀ ab, ab ∈ st.portMapping → ab ∈ (processEntityRows env st rows).portMapping) ∧
      ((st.portMapping.map (fun kv => kv.2)).Nodup →
        ((processEntityRows env st rows).portMapping.map (fun kv => kv.2)).Nodup) := by
  intro rows
  induction rows with
  | nil =>
    intro st
    exact ⟨fun y hy => Or.inl hy, fun y hy => hy, fun y hy => Or.inl hy,
      fun y hy => Or.inl hy, fun y hy => hy, fun y hy => Or.inl hy,
      fun ab hab => Or.inl hab, fun ab hab => hab, fun h => h⟩
  | cons head rest ih =>
    intro st
    obtain ⟨j, rp⟩ := head
    obtain ⟨s1, s2, s3, s4, s5, s6, s7, s8, s9⟩ := processEntityRow_step env st j rp
    obtain ⟨r1, r2, r3, r4, r5, r6, r7, r8, r9⟩ := ih (processEntityRow env st j rp)
    have hkeys : ((j, rp) :: rest).map (fun kv => kv.1) = j :: rest.map (fun kv => kv.1) := rfl
    rw [show processEntityRows env st ((j, rp) :: rest) =
      processEntityRows env (processEntityRow env st j rp) rest from rfl, hkeys]
    refine ⟨?_, ?_, ?_, ?_, ?_, ?_, ?_, ?_, ?_⟩
    · intro y hy
      rcases r1 y hy with hy2 | hy2
      · rcases s1 y hy2 with hy3 | hy3
        · exact Or.inl hy3
        · exact Or.inr (hy3 ▸ List.mem_cons_self j _)
      · exact Or.inr (List.mem_cons_of_mem j hy2)
    · intro y hy
      exact r2 y (s2 y hy)
    · intro y hy
      rcases r3 y hy with hy2 | hy2
      · rcases s3 y hy2 with hy3 | hy3
        · exact Or.inl hy3
        · exact Or.inr (hy3 ▸ List.mem_cons_self j _)
      · exact Or.inr (List.mem_cons_of_mem j hy2)
    · intro y hy
      rcases r4 y hy with hy2 | hy2
      · rcases s4 y hy2 with hy3 | hy3
        · exact Or.inl hy3
        · exact Or.inr (hy3 ▸ List.mem_cons_self j _)
      · exact Or.inr (List.mem_cons_of_mem j hy2)
    · intro y hy
      exact r5 y (s5 y hy)
    · intro y hy
      rcases r6 y hy with hy2 | hy2
      · rcases s6 y hy2 with hy3 | hy3
        · exact Or.inl hy3
        · exact Or.inr (hy3 ▸ List.mem_cons_self j _)
      · exact Or.inr (List.mem_cons_of_mem j hy2)
    · intro ab hab
      rcases r7 ab hab with hab2 | hab2
      · rcases s7 ab hab2 with hab3 | hab3
        · exact Or.inl hab3
        · exact Or.inr (hab3 ▸ List.mem_cons_self j _)
      · exact Or.inr (List.mem_cons_of_mem j hab2)
    · intro ab hab
      exact r8 ab (s8 ab hab)
    · intro hnd
      apply r9
      rcases s9 with hsame | ⟨pid, hfreshpid, happ⟩
      · rw [hsame]
        exact hnd
      · rw [happ, List.map_append]
        rw [List.nodup_append]
        refine ⟨hnd, by simp, ?_⟩
        intro a ha hb
        simp at hb
        subst hb
        exact hfreshpid ha

theorem processEntityRows_append (env : SnmpEnv) :
    ∀ (r1 r2 : List (Int × String)) (st : ETState),
      processEntityRows env st (r1 ++ r2) =
        processEntityRows env (processEntityRows env st r1) r2 := by
  intro r1
  induction r1 with
  | nil => intro r2 st; rfl
  | cons head rest ih =>
    intro r2 st
    obtain ⟨j, rp⟩ := head
    exact ih r2 (processEntityRow env st j rp)

theorem processEntityRow_empty (env : SnmpEnv) (st : ETState) (i : Int) :
    processEntityRow env st i "" =
      { st with exclusionList := st.exclusionList ++ [i] } := by
  have h : (("" : String) == "") = true := by decide
  simp only [processEntityRow, h, if_true]

theorem snd_nodup_inj (l : List (Int × Int))
    (h : (l.map (fun kv => kv.2)).Nodup) :
    ∀ i j p, (i, p) ∈ l → (j, p) ∈ l → i = j := by
  induction l with
  | nil => intro i j p hi; simp at hi
  | cons ab l ih =>
    intro i j p hi hj
    have hhead : ab.2 ∉ l.map (fun kv => kv.2) := (List.nodup_cons.mp h).1
    have htail : (l.map (fun kv => kv.2)).Nodup := (List.nodup_cons.mp h).2
    rcases List.mem_cons.mp hi with hi2 | hi2
    · rcases List.mem_cons.mp hj with hj2 | hj2
      · have heq : (i, p) = (j, p) := hi2.trans hj2.symm
        exact ((Prod.mk.injEq i p j p).mp heq).1
      · exfalso
        apply hhead
        have hp : p = ab.2 := congrArg Prod.snd hi2
        exact hp ▸ List.mem_map_of_mem (fun kv => kv.2) hj2
    · rcases List.mem_cons.mp hj with hj2 | hj2
      · exfalso
        apply hhead
        have hp : p = ab.2 := congrArg Prod.snd hj2
        exact hp ▸ List.mem_map_of_mem (fun kv => kv.2) hi2
      · exact ih htail i j p hi2 hj2

theorem portAccepted_iff (env : SnmpEnv) (claimed : List Int) (i : Int) :
    portAccepted env claimed i = true ↔
      portNameExcluded (env.nameOf i) = false ∧
      portNameExcluded (env.descrOf i) = false ∧
      ∃ pid, getMapping env i (env.descrOf i) = some pid ∧ pid ≠ 0 ∧
        (env.ifTable.find? (fun kv => kv.1 == pid)).isSome = true ∧
        pid ∉ claimed := by
  unfold portAccepted
  cases hm : getMapping env i (env.descrOf i) with
  | none =>
    simp only [Bool.and_eq_true, Bool.not_eq_true']
    constructor
    · intro h
      simp at h
    · rintro ⟨h1, h2, pid, hpid, -⟩
      simp at hpid
  | some pid =>
    simp only [Bool.and_eq_true, Bool.not_eq_true']
    constructor
    · rintro ⟨⟨h1, h2⟩, ⟨h3, h4⟩, h5⟩
      refine ⟨h1, h2, pid, rfl, beq_eq_false_iff_ne.mp h3, h4, ?_⟩
      simp [List.contains] at h5
      exact h5
    · rintro ⟨h1, h2, pid2, hpid2, hz, hfind, hnmem⟩
      have hpe : pid2 = pid := (Option.some.inj hpid2).symm
      subst hpe
      refine ⟨⟨h1, h2⟩, ⟨beq_eq_false_iff_ne.mpr hz, hfind⟩, ?_⟩
      simp [List.contains]
      exact hnmem

theorem processEntityRow_port_step (env : SnmpEnv) (st : ETState) (i : Int)
    (rp : String) (h : rowReachesPortBranch env i rp = true) :
    (portAccepted env (st.portMapping.map (fun kv => kv.2)) i = true →
      (processEntityRow env st i rp).portList = st.portList ++ [i]) ∧
    (portAccepted env (st.portMapping.map (fun kv => kv.2)) i = false →
      (processEntityRow env st i rp).portList = st.portList) := by
  unfold rowReachesPortBranch at h
  simp only [Bool.and_eq_true, Bool.not_eq_true'] at h
  obtain ⟨⟨⟨h1, h2a⟩, h3⟩, h4⟩ := h
  have h4e : resolveClass env i (env.classOf i) = some "port" := beq_iff_eq.mp h4
  have hbody : processEntityRow env st i rp = portBranch env
      { st with
        fetched := (st.fetched ++ [i]) ++ [i],
        resultDict := st.resultDict ++ [(i, entityRowOf env i rp "port")] } i := by
    simp only [processEntityRow]
    rw [if_neg (by simp [h1])]
    have hor : (env.containedInOf i == "" ||
        entityTableBlackList.any fun kw => strHas (lowerStr (env.vendorTypeOf i)) kw) =
        false := by
      rw [h2a, h3]
      rfl
    rw [if_neg (by simp [hor])]
    rw [if_neg (by simp [h2a])]
    simp only [h4e]
    rw [if_pos (by decide : (strHasAny "port" structuralClassKeywords) = true)]
    rw [if_neg (by decide : ¬ ((("port" : String) == "chassis") = true))]
    rw [if_pos (by decide : ((("port" : String) == "port") = true))]
  rw [hbody]
  constructor
  · intro hacc
    rw [portAccepted_iff] at hacc
    obtain ⟨hn1, hn2, pid, hm, hz, hfind, hnmem⟩ := hacc
    unfold portBranch
    split
    · split
      · rename_i pid2 hm2
        rw [hm] at hm2
        have hpe : pid = pid2 := Option.some.inj hm2
        subst hpe
        split
        · rfl
        · rename_i hcond
          exact absurd ⟨hz, hfind, hnmem⟩ hcond
      · rename_i hm2
        rw [hm] at hm2
        simp at hm2
    · rename_i hn
      exact absurd ⟨by simp [hn1], by simp [hn2]⟩ hn
  · intro hacc
    unfold portBranch
    split
    · rename_i hn
      split
      · rename_i pid hm2
        split
        · rename_i hcond
          exfalso
          have hh1 : portNameExcluded (env.nameOf i) = false := by simpa using hn.1
          have hh2 : portNameExcluded (env.descrOf i) = false := by simpa using hn.2
          have hacc2 : portAccepted env (st.portMapping.map (fun kv => kv.2)) i =
              true := by
            rw [portAccepted_iff]
            exact ⟨hh1, hh2, pid, hm2, hcond.1, hcond.2.1, hcond.2.2⟩
          rw [hacc2] at hacc
          simp at hacc
        · rfl
      · rfl
    · rfl

theorem getEntityTable_spec (env : SnmpEnv) (final : ETState)
    (hrun : getEntityTable env = some final) :
    ∃ excl, filterEntityTablePass
        (processEntityRows env initETState env.physicalIndexes).resultDict
        (processEntityRows env initETState env.physicalIndexes).exclusionList =
          some excl ∧
      final = { processEntityRows env initETState env.physicalIndexes with
                exclusionList := excl } := by
  simp only [getEntityTable] at hrun
  cases hpass : filterEntityTablePass
      (processEntityRows env initETState env.physicalIndexes).resultDict
      (processEntityRows env initETState env.physicalIndexes).exclusionList with
  | none => rw [hpass] at hrun; simp at hrun
  | some excl =>
    rw [hpass] at hrun
    simp only [Option.some.injEq] at hrun
    exact ⟨excl, rfl, hrun.symm⟩

/-- C7: a row with empty ParentRelPos is excluded before classification: its
id lands in the exclusion list, no attribute fetch happens for it, and it is
never retained. -/
theorem claim_c7_empty_relpos (env : SnmpEnv) (idx : Int) (final : ETState)
    (hkeys : (env.physicalIndexes.map (fun kv => kv.1)).Nodup)
    (hmem : (idx, "") ∈ env.physicalIndexes)
    (hrun : getEntityTable env = some final) :
    idx ∈ final.exclusionList ∧ idx ∉ final.fetched ∧
      idx ∉ tableKeys final.resultDict := by
  obtain ⟨excl, hpass, hfinal⟩ := getEntityTable_spec env final hrun
  obtain ⟨pre, post, hsplit⟩ := List.append_of_mem hmem
  have hkeys2 : idx ∉ pre.map (fun kv => kv.1) ∧ idx ∉ post.map (fun kv => kv.1) := by
    rw [hsplit, List.map_append, List.map_cons] at hkeys
    obtain ⟨hnp, hnc, hdisj⟩ := List.nodup_append.mp hkeys
    exact ⟨fun hin => hdisj hin (List.mem_cons_self _ _),
      (List.nodup_cons.mp hnc).1⟩
  have hstAll : processEntityRows env initETState env.physicalIndexes =
      processEntityRows env
        (processEntityRow env (processEntityRows env initETState pre) idx "") post := by
    rw [hsplit, processEntityRows_append]
    rfl
  have hmid : processEntityRow env (processEntityRows env initETState pre) idx "" =
      { processEntityRows env initETState pre with
        exclusionList := (processEntityRows env initETState pre).exclusionList ++ [idx] } :=
    processEntityRow_empty env _ idx
  refine ⟨?_, ?_, ?_⟩
  · have h1 : idx ∈ (processEntityRow env (processEntityRows env initETState pre)
        idx "").exclusionList := by
      rw [hmid]
      exact List.mem_append_right _ (List.mem_singleton.mpr rfl)
    have h2 : idx ∈ (processEntityRows env initETState env.physicalIndexes).exclusionList := by
      rw [hstAll]
      exact (processEntityRows_step env post _).2.2.2.2.1 idx h1
    have h3 : idx ∈ excl := by
      rw [filterEntityTablePass_eq] at hpass
      exact Option.some.inj hpass ▸ h2
    rw [hfinal]
    exact h3
  · rw [hfinal]
    intro hin
    rw [hstAll] at hin
    rcases (processEntityRows_step env post _).2.2.1 idx hin with hin2 | hin2
    · rw [hmid] at hin2
      rcases (processEntityRows_step env pre initETState).2.2.1 idx hin2 with hin3 | hin3
      · simp [initETState] at hin3
      · exact hkeys2.1 hin3
    · exact hkeys2.2 hin2
  · rw [hfinal]
    intro hin
    rw [hstAll] at hin
    rcases (processEntityRows_step env post _).2.2.2.2.2.1 idx hin with hin2 | hin2
    · rw [hmid] at hin2
      rcases (processEntityRows_step env pre initETState).2.2.2.2.2.1 idx hin2 with
        hin3 | hin3
      · simp [initETState, tableKeys] at hin3
      · exact hkeys2.1 hin3
    · exact hkeys2.2 hin2

/-- C7 witness: the single row of `envW7` has an empty ParentRelPos and is
excluded unfetched. -/
theorem claim_c7_witness :
    getEntityTable envW7 = some etStateW7 ∧
    (5 : Int) ∈ etStateW7.exclusionList ∧ (5 : Int) ∉ etStateW7.fetched ∧
      (5 : Int) ∉ tableKeys etStateW7.resultDict :=
  ⟨by decide,
   claim_c7_empty_relpos envW7 5 etStateW7 (by decide) (by decide) (by decide)⟩

/-- C6 counterexample: in `envC6` the port row 5 resolves to the logical
index 0, which exists in the interface table and is unclaimed, and its name
and description are clean — yet the truthiness test of the source
drops it, so it never enters the port list.  The claimed if-and-only-if
characterisation (without a nonzero requirement) is false. -/
theorem claim_c6_counterexample :
    ¬ (∀ final, getEntityTable envC6 = some final →
        ∀ idx relPos pre post,
          envC6.physicalIndexes = pre ++ (idx, relPos) :: post →
          rowReachesPortBranch envC6 idx relPos = true →
          (idx ∈ final.portList ↔
            (portNameExcluded (envC6.nameOf idx) = false ∧
             portNameExcluded (envC6.descrOf idx) = false ∧
             ∃ pid, getMapping envC6 idx (envC6.descrOf idx) = some pid ∧
               (envC6.ifTable.find? (fun kv => kv.1 == pid)).isSome = true ∧
               pid ∉ (processEntityRows envC6 initETState pre).portMapping.map
                 (fun kv => kv.2)))) := by
  intro h
  have h2 := h etStateC6 (by decide) 5 "1" [] [] rfl (by decide)
  have h3 := h2.mpr ⟨by decide, by decide, 0, by decide, by decide, by decide⟩
  exact absurd h3 (by decide)

/-- C6 amended: a row that reaches the port branch enters the port id list
if and only if its name and description avoid the exclusion pattern, a
nonzero logical interface index is resolved for it, that index is a key of
the interface table, and it was not claimed by an earlier port row; the
final physical-to-logical port mapping is injective. -/
theorem claim_c6_amended (env : SnmpEnv) (pre post : List (Int × String))
    (idx : Int) (relPos : String) (final : ETState)
    (hkeys : (env.physicalIndexes.map (fun kv => kv.1)).Nodup)
    (hsplit : env.physicalIndexes = pre ++ (idx, relPos) :: post)
    (hrun : getEntityTable env = some final)
    (hclass : rowReachesPortBranch env idx relPos = true) :
    (idx ∈ final.portList ↔
      (portNameExcluded (env.nameOf idx) = false ∧
       portNameExcluded (env.descrOf idx) = false ∧
       ∃ pid, getMapping env idx (env.descrOf idx) = some pid ∧ pid ≠ 0 ∧
         (env.ifTable.find? (fun kv => kv.1 == pid)).isSome = true ∧
         pid ∉ (processEntityRows env initETState pre).portMapping.map
           (fun kv => kv.2))) ∧
    (∀ i j p, (i, p) ∈ final.portMapping → (j, p) ∈ final.portMapping → i = j) := by
  obtain ⟨excl, hpass, hfinal⟩ := getEntityTable_spec env final hrun
  have hkeys2 : idx ∉ pre.map (fun kv => kv.1) ∧ idx ∉ post.map (fun kv => kv.1) := by
    rw [hsplit, List.map_append, List.map_cons] at hkeys
    obtain ⟨hnp, hnc, hdisj⟩ := List.nodup_append.mp hkeys
    exact ⟨fun hin => hdisj hin (List.mem_cons_self _ _),
      (List.nodup_cons.mp hnc).1⟩
  have hstAll : processEntityRows env initETState env.physicalIndexes =
      processEntityRows env
        (processEntityRow env (processEntityRows env initETState pre) idx relPos)
        post := by
    rw [hsplit, processEntityRows_append]
    rfl
  obtain ⟨hstep1, hstep2⟩ :=
    processEntityRow_port_step env (processEntityRows env initETState pre) idx
      relPos hclass
  constructor
  · cases hacc : portAccepted env
        ((processEntityRows env initETState pre).portMapping.map (fun kv => kv.2))
        idx with
    | true =>
      have hmidmem : idx ∈ (processEntityRow env
          (processEntityRows env initETState pre) idx relPos).portList := by
        rw [hstep1 hacc]
        exact List.mem_append_right _ (List.mem_singleton.mpr rfl)
      have hmem2 : idx ∈ final.portList := by
        rw [hfinal]
        show idx ∈ (processEntityRows env initETState env.physicalIndexes).portList
        rw [hstAll]
        exact (processEntityRows_step env post _).2.1 idx hmidmem
      constructor
      · intro _
        exact (portAccepted_iff env _ idx).mp hacc
      · intro _
        exact hmem2
    | false =>
      have hnmem : idx ∉ final.portList := by
        rw [hfinal]
        show idx ∉ (processEntityRows env initETState env.physicalIndexes).portList
        rw [hstAll]
        intro hin
        rcases (processEntityRows_step env post _).1 idx hin with hin2 | hin2
        · rw [hstep2 hacc] at hin2
          rcases (processEntityRows_step env pre initETState).1 idx hin2 with
            hin3 | hin3
          · simp [initETState] at hin3
          · exact hkeys2.1 hin3
        · exact hkeys2.2 hin2
      constructor
      · intro hmem2
        exact absurd hmem2 hnmem
      · intro hcond
        have : portAccepted env
            ((processEntityRows env initETState pre).portMapping.map (fun kv => kv.2))
            idx = true := (portAccepted_iff env _ idx).mpr hcond
        rw [this] at hacc
        simp at hacc
  · have hnd : ((processEntityRows env initETState
        env.physicalIndexes).portMapping.map (fun kv => kv.2)).Nodup :=
      (processEntityRows_step env env.physicalIndexes initETState).2.2.2.2.2.2.2.2
        (by simp [initETState])
    intro i j p hi hj
    rw [hfinal] at hi hj
    exact snd_nodup_inj _ hnd i j p hi hj

/-- C6 witness: in `envW6` the port row 5 resolves to the nonzero logical
index 7, present and unclaimed, and enters the port list. -/
theorem claim_c6_witness :
    getEntityTable envW6 = some etStateW6 ∧ (5 : Int) ∈ etStateW6.portList :=
  ⟨by decide,
   (claim_c6_amended envW6 [] [] 5 "1" etStateW6 (by decide) rfl (by decide)
      (by decide)).1.mpr
     ⟨by decide, by decide, 7, by decide, by decide, by decide, by decide⟩⟩

/- Claim C8: the IP address attribute lookup -/

/-- C8: `_get_ip_interface_details` examines only the first table entry (the
loop body breaks unconditionally), and skips one-entry tables entirely, so a
port whose matching address entry is not the literal first entry gets an
empty attribute; the spec-modelled first-match lookup finds the matching key
at the same inputs. -/
theorem claim_c8_first_entry_only :
    getIpInterfaceDetails ipTableC8 [] 7 = some ("", "") ∧
    ipFirstMatch ipTableC8 7 = "10.0.0.2" ∧
    getIpInterfaceDetails ipTableC8single [] 7 = some ("", "") ∧
    ipFirstMatch ipTableC8single 7 = "10.0.0.2" := by decide

/- Claim C9: the module list -/

theorem getModuleParents_class (table : List (Int × ERow)) :
    ∀ (fuel : Nat) (moduleId : Int) (ancestors : List Int),
      getModuleParents fuel table moduleId = some ancestors →
      ∀ m ∈ ancestors, ∃ row, tableGet table m = some row ∧
        strHas row.eclass "module" = true := by
  intro fuel
  induction fuel with
  | zero => intro mid anc h; simp [getModuleParents] at h
  | succ fuel ih =>
    intro mid anc h m hm
    rw [getModuleParents] at h
    cases hrow : tableGet table mid with
    | none => rw [hrow] at h; simp at h
    | some row =>
      rw [hrow] at h
      simp only at h
      cases hpid : parseInt row.containedIn with
      | none => rw [hpid] at h; simp at h
      | some parentId =>
        rw [hpid] at h
        simp only at h
        by_cases hlt : (0 : Int) < parentId
        · rw [if_pos hlt] at h
          cases hprow : tableGet table parentId with
          | none =>
            rw [hprow] at h
            simp only [Option.some.injEq] at h
            rw [← h] at hm
            simp at hm
          | some prow =>
            rw [hprow] at h
            simp only at h
            by_cases hmod : (strHas prow.eclass "module") = true
            · rw [if_pos hmod] at h
              cases hrec : getModuleParents fuel table parentId with
              | none => rw [hrec] at h; simp at h
              | some rest =>
                rw [hrec] at h
                simp only [Option.some.injEq] at h
                rw [← h] at hm
                rcases List.mem_cons.mp hm with rfl | hmr
                · exact ⟨prow, hprow, hmod⟩
                · exact ih parentId rest hrec m hmr
            · rw [if_neg hmod] at h
              by_cases hch : (strHas prow.eclass "chassis") = true
              · rw [if_pos hch] at h
                simp only [Option.some.injEq] at h
                rw [← h] at hm
                simp at hm
              · rw [if_neg hch] at h
                exact ih parentId anc h m hm
        · rw [if_neg hlt] at h
          simp only [Option.some.injEq] at h
          rw [← h] at hm
          simp at hm

theorem addModules_spec (vendorOf : Int → String) (exclusionList : List Int) :
    ∀ (modules : List Int) (acc : List Int × List Int),
      ∀ m ∈ (addModules vendorOf exclusionList modules acc).1,
        m ∈ acc.1 ∨ (m ∈ modules ∧ strHas (lowerStr (vendorOf m)) "cevsfp" = false ∧
          m ∉ exclusionList) := by
  intro modules
  induction modules with
  | nil => intro acc m hm; exact Or.inl hm
  | cons m0 rest ih =>
    intro acc m hm
    rw [addModules] at hm
    by_cases h1 : m0 ∈ acc.1
    · rw [if_pos h1] at hm
      rcases ih acc m hm with h | ⟨ha, hb, hc⟩
      · exact Or.inl h
      · exact Or.inr ⟨List.mem_cons_of_mem m0 ha, hb, hc⟩
    · rw [if_neg h1] at hm
      by_cases h2 : ¬ strHas (lowerStr (vendorOf m0)) "cevsfp" = true
      · rw [if_pos h2] at hm
        by_cases h3 : m0 ∉ exclusionList ∧ m0 ∉ acc.1
        · rw [if_pos h3] at hm
          rcases ih (acc.1 ++ [m0], acc.2) m hm with h | ⟨ha, hb, hc⟩
          · rcases List.mem_append.mp h with h4 | h4
            · exact Or.inl h4
            · have hme : m = m0 := List.mem_singleton.mp h4
              subst hme
              exact Or.inr ⟨List.mem_cons_self m rest,
                Bool.not_eq_true _ ▸ Bool.eq_false_iff.mpr h2, h3.1⟩
          · exact Or.inr ⟨List.mem_cons_of_mem m0 ha, hb, hc⟩
        · rw [if_neg h3] at hm
          rcases ih acc m hm with h | ⟨ha, hb, hc⟩
          · exact Or.inl h
          · exact Or.inr ⟨List.mem_cons_of_mem m0 ha, hb, hc⟩
      · rw [if_neg h2] at hm
        rcases ih (acc.1, acc.2 ++ [m0]) m hm with h | ⟨ha, hb, hc⟩
        · exact Or.inl h
        · exact Or.inr ⟨List.mem_cons_of_mem m0 ha, hb, hc⟩

theorem getModuleList_fold (fuel : Nat) (vendorOf : Int → String)
    (table : List (Int × ERow)) (exclusionList : List Int) :
    ∀ (ports : List Int) (acc res : List Int × List Int),
      ports.foldlM
        (fun acc p =>
          match getModuleParents fuel table p with
          | none => none
          | some modules => some (addModules vendorOf exclusionList modules acc))
        acc = some res →
      ∀ m ∈ res.1, m ∈ acc.1 ∨
        ((∃ p ∈ ports, ∃ ancestors, getModuleParents fuel table p = some ancestors ∧
          m ∈ ancestors) ∧
         strHas (lowerStr (vendorOf m)) "cevsfp" = false ∧ m ∉ exclusionList) := by
  intro ports
  induction ports with
  | nil =>
    intro acc res h m hm
    simp [List.foldlM] at h
    subst h
    exact Or.inl hm
  | cons p rest ih =>
    intro acc res h m hm
    rw [List.foldlM_cons] at h
    cases hmp : getModuleParents fuel table p with
    | none => rw [hmp] at h; simp at h
    | some modules =>
      rw [hmp] at h
      simp only [Option.bind_eq_bind, Option.some_bind] at h
      rcases ih (addModules vendorOf exclusionList modules acc) res h m hm with
        h2 | ⟨⟨p2, hp2, anc, hanc, hmanc⟩, hb, hc⟩
      · rcases addModules_spec vendorOf exclusionList modules acc m h2 with
          h3 | ⟨ha, hb, hc⟩
        · exact Or.inl h3
        · exact Or.inr ⟨⟨p, List.mem_cons_self p rest, modules, hmp, ha⟩, hb, hc⟩
      · exact Or.inr ⟨⟨p2, List.mem_cons_of_mem p hp2, anc, hanc, hmanc⟩, hb, hc⟩

/-- C9: every module in the module list is a module-class ancestor of a port
of the port list, reached by the parent walk that a chassis ancestor
terminates; a module whose vendor type matches the exclusion pattern, or
with no retained-port descendant, never enters the list; and
`add_relative_paths` binds addresses only for keys of the module and port
snapshots. -/
theorem claim_c9_module_ancestry (fuel : Nat) (vendorOf : Int → String)
    (table : List (Int × ERow)) (portList exclusionList : List Int)
    (moduleList excludedModels : List Int)
    (hrun : getModuleList fuel vendorOf table portList exclusionList =
      some (moduleList, excludedModels)) :
    (∀ m ∈ moduleList,
      (∃ p ∈ portList, ∃ ancestors, getModuleParents fuel table p = some ancestors ∧
        m ∈ ancestors) ∧
      (∃ row, tableGet table m = some row ∧ strHas row.eclass "module" = true) ∧
      strHas (lowerStr (vendorOf m)) "cevsfp" = false ∧
      m ∉ exclusionList) ∧
    (∀ (fuelA : Nat) (stA stB : AState), addRelativePaths fuelA stA = some stB →
      ∀ k, dictGet stB.rp k ≠ dictGet stA.rp k →
        k ∈ stA.module_list ∨ k ∈ stA.port_list) := by
  constructor
  · intro m hm
    unfold getModuleList at hrun
    rcases getModuleList_fold fuel vendorOf table exclusionList portList ([], [])
        (moduleList, excludedModels) hrun m hm with h | ⟨⟨p, hp, anc, hanc, hmanc⟩, hb, hc⟩
    · simp at h
    · refine ⟨⟨p, hp, anc, hanc, hmanc⟩, ?_, hb, hc⟩
      exact getModuleParents_class table fuel p anc hanc m hmanc
  · intro fuelA stA stB hab k hne
    rw [addRelativePaths] at hab
    cases hmp : modulePhase fuelA stA stA.module_list with
    | none => rw [hmp] at hab; simp at hab
    | some st1 =>
      rw [hmp] at hab
      simp only at hab
      by_cases hkm : k ∈ stA.module_list
      · exact Or.inl hkm
      by_cases hkp : k ∈ stA.port_list
      · exact Or.inr hkp
      exfalso
      apply hne
      have e1 : dictGet st1.rp k = dictGet stA.rp k :=
        (modulePhase_invariants fuelA stA.module_list stA st1 hmp).2.2.1 k hkm
      have e2 : dictGet stB.rp k = dictGet st1.rp k :=
        (portPhase_invariants fuelA stA.port_list st1 stB hab).2.2.1 k hkp
      rw [e2, e1]

/-- C9 witness: on `ctableW9` the single port 3 yields the module list
`[2]`, and module 2 satisfies the ancestry characterisation. -/
theorem claim_c9_witness :
    getModuleList 10 (fun _ => "cevModuleCommon") ctableW9 [3] [] =
      some ([2], []) ∧ (2 : Int) ∉ ([] : List Int) :=
  ⟨by decide,
   ((claim_c9_module_ancestry 10 (fun _ => "cevModuleCommon") ctableW9 [3] []
      [2] [] (by decide)).1 2 (by decide)).2.2.2⟩

/- Claim C10: nested power-supply filtering -/

theorem filterPowerPortLoop_subset (table : List (Int × ERow)) :
    ∀ (copy live res : List Int), filterPowerPortLoop table copy live = some res →
      ∀ x ∈ res, x ∈ live := by
  intro copy
  induction copy with
  | nil =>
    intro live res h x hx
    simp [filterPowerPortLoop] at h
    exact h ▸ hx
  | cons h0 rest ih =>
    intro live res h x hx
    rw [filterPowerPortLoop] at h
    cases hrow : tableGet table h0 with
    | none => rw [hrow] at h; simp at h
    | some row =>
      rw [hrow] at h
      simp only at h
      cases hpid : parseInt row.containedIn with
      | none => rw [hpid] at h; simp at h
      | some parentIndex =>
        rw [hpid] at h
        simp only at h
        cases hprow : tableGet table parentIndex with
        | none => rw [hprow] at h; simp at h
        | some prow =>
          rw [hprow] at h
          simp only at h
          by_cases hcls : (strHas prow.eclass "powerSupply") = true
          · rw [if_pos hcls] at h
            by_cases hin : parentIndex ∈ live
            · rw [if_pos hin] at h
              exact (live.erase_subset h0) (ih _ _ h x hx)
            · rw [if_neg hin] at h
              exact ih _ _ h x hx
          · rw [if_neg hcls] at h
            exact ih _ _ h x hx

theorem filterPowerPortLoop_removes (table : List (Int × ERow)) :
    ∀ (copy live res : List Int), live.Nodup →
      filterPowerPortLoop table copy live = some res →
      ∀ c ∈ copy, ∀ crow, tableGet table c = some crow →
        ∀ p, parseInt crow.containedIn = some p →
          ∀ prow, tableGet table p = some prow →
            strHas prow.eclass "powerSupply" = true → p ∈ res → c ∉ res := by
  intro copy
  induction copy with
  | nil => intro live res _ h c hc; simp at hc
  | cons h0 rest ih =>
    intro live res hnd h c hc crow hcrow p hp prow hprow hcls hpres
    rw [filterPowerPortLoop] at h
    rcases List.mem_cons.mp hc with rfl | hcr
    · rw [hcrow] at h
      simp only at h
      rw [hp] at h
      simp only at h
      rw [hprow] at h
      simp only at h
      rw [if_pos hcls] at h
      by_cases hin : p ∈ live
      · rw [if_pos hin] at h
        intro hcres
        have := filterPowerPortLoop_subset table rest _ res h c hcres
        exact ((List.Nodup.mem_erase_iff hnd).mp this).1 rfl
      · rw [if_neg hin] at h
        exact absurd (filterPowerPortLoop_subset table rest _ res h p hpres) hin
    · cases hrow0 : tableGet table h0 with
      | none => rw [hrow0] at h; simp at h
      | some row0 =>
        rw [hrow0] at h
        simp only at h
        cases hpid0 : parseInt row0.containedIn with
        | none => rw [hpid0] at h; simp at h
        | some parentIndex0 =>
          rw [hpid0] at h
          simp only at h
          cases hprow0 : tableGet table parentIndex0 with
          | none => rw [hprow0] at h; simp at h
          | some prow0 =>
            rw [hprow0] at h
            simp only at h
            by_cases hcls0 : (strHas prow0.eclass "powerSupply") = true
            · rw [if_pos hcls0] at h
              by_cases hin0 : parentIndex0 ∈ live
              · rw [if_pos hin0] at h
                exact ih _ res (hnd.erase h0) h c hcr crow hcrow p hp prow hprow
                  hcls hpres
              · rw [if_neg hin0] at h
                exact ih _ res hnd h c hcr crow hcrow p hp prow hprow hcls hpres
            · rw [if_neg hcls0] at h
              exact ih _ res hnd h c hcr crow hcrow p hp prow hprow hcls hpres

/-- C10 counterexample: on the chain 2 → 3 → 4 of `ctableC10` the filter
keeps entry 4 although its parent 3 is power-supply-classified and present
in the power-supply list, because 3 was removed from the live list before 4
was examined; entry 4 then produces an output power-port resource while its
parent 3 does not.  The claim as stated is false. -/
theorem claim_c10_counterexample :
    ¬ (∀ res, filterPowerPortList ctableC10 [2, 3, 4] = some res →
        ∀ c ∈ [(2 : Int), 3, 4], ∀ crow, tableGet ctableC10 c = some crow →
          ∀ p, parseInt crow.containedIn = some p →
            ∀ prow, tableGet ctableC10 p = some prow →
              strHas prow.eclass "powerSupply" = true →
              p ∈ [(2 : Int), 3, 4] → c ∉ res) := by
  intro h
  exact (h [2, 4] (by decide) 4 (by decide) (mkRow "3" "1" "powerSupply") (by decide)
    3 (by decide) (mkRow "2" "1" "powerSupply") (by decide) (by decide) (by decide))
    (by decide)

/-- C10 amended: a power-supply entry whose power-supply-classified parent
is still present in the live list when the entry is examined is removed; in
particular, whenever the parent itself survives the filter, the child is
removed, so of such a parent/child pair only the parent can produce an
output power-port resource. -/
theorem claim_c10_amended (table : List (Int × ERow)) (psl res : List Int)
    (hnd : psl.Nodup) (hrun : filterPowerPortList table psl = some res)
    (c p : Int) (crow prow : ERow)
    (hc : c ∈ psl) (hcrow : tableGet table c = some crow)
    (hp : parseInt crow.containedIn = some p)
    (hprow : tableGet table p = some prow)
    (hcls : strHas prow.eclass "powerSupply" = true)
    (hpres : p ∈ res) : c ∉ res := by
  unfold filterPowerPortList at hrun
  exact filterPowerPortLoop_removes table psl psl res hnd hrun c hc crow hcrow p hp
    prow hprow hcls hpres

/-- C10 witness: on the chain of `ctableC10` the surviving parent 2 forces
its child 3 out of the filtered list. -/
theorem claim_c10_witness :
    filterPowerPortList ctableC10 [2, 3, 4] = some [2, 4] ∧
      (3 : Int) ∉ [(2 : Int), 4] :=
  ⟨by decide,
   claim_c10_amended ctableC10 [2, 3, 4] [2, 4] (by decide) (by decide) 3 2
     (mkRow "2" "1" "powerSupply") (mkRow "1" "1" "powerSupply") (by decide)
     (by decide) (by decide) (by decide) (by decide) (by decide)⟩
